import Mathlib

/-!
Verification development for the Unity C# function indexer
(`unity_indexer.go`).  The Go source is shallowly embedded: strings are
Lean `String`s (which, at the kernel level, are lists of `Char`), the
regular-expression matchers of the parser are hand-compiled into
backtracking matchers with Perl/leftmost-first semantics (the semantics
of Go's `regexp` package for submatches), file I/O is modelled by
passing file contents and directory-walk event lists explicitly, and
`fmt.Printf` warnings are collected into a list of strings.
-/

namespace UnityIndexer

/-! ### Character classes

`reSpace` is the RE2 character class `\s` (`[\t\n\f\r ]`), used by the
regular expressions.  `uniIsSpace` models Go's `unicode.IsSpace` (used
by `strings.TrimSpace` and `strings.Fields`) on the Latin-1 range; the
rarely-seen wider Unicode space code points are not modelled.
`wordChar` is RE2 `\w` = `[0-9A-Za-z_]`. -/

def reSpace (c : Char) : Bool :=
  c = ' ' ∨ c = '\t' ∨ c = '\n' ∨ c = '\x0c' ∨ c = '\r'

def uniIsSpace (c : Char) : Bool :=
  c = ' ' ∨ c = '\t' ∨ c = '\n' ∨ c = '\x0b' ∨ c = '\x0c' ∨ c = '\r' ∨
  c = '\x85' ∨ c = '\xa0'

def wordChar (c : Char) : Bool :=
  ('0' ≤ c ∧ c ≤ '9') ∨ ('a' ≤ c ∧ c ≤ 'z') ∨ ('A' ≤ c ∧ c ≤ 'Z') ∨ c = '_'

/-- The character class `[\w\s,()=.]` appearing inside the attribute
group of the function-declaration regular expression. -/
def attrBodyChar (c : Char) : Bool :=
  wordChar c ∨ reSpace c ∨ c = ',' ∨ c = '(' ∨ c = ')' ∨ c = '=' ∨ c = '.'

/-- The character class `[\w<>\[\]]` for the return-type token. -/
def typeChar (c : Char) : Bool :=
  wordChar c ∨ c = '<' ∨ c = '>' ∨ c = '[' ∨ c = ']'

/-- The character class `[\w.]` for a dotted namespace identifier. -/
def nsChar (c : Char) : Bool :=
  wordChar c ∨ c = '.'

/-! ### Go string primitives, modelled over `String.data` -/

/-- Model of Go's ASCII lower-casing as performed by `strings.ToLower`
on the identifiers and keywords this program manipulates (`A`-`Z` map
to `a`-`z`; all other characters are unchanged). -/
def toLowerChar (c : Char) : Char :=
  if 65 ≤ c.toNat ∧ c.toNat ≤ 90 then Char.ofNat (c.toNat + 32) else c

def goToLower (s : String) : String :=
  String.mk (s.data.map toLowerChar)

def trimList (l : List Char) : List Char :=
  ((l.dropWhile uniIsSpace).reverse.dropWhile uniIsSpace).reverse

/-- Model of `strings.TrimSpace`. -/
def goTrimSpace (s : String) : String :=
  String.mk (trimList s.data)

/-- Model of `strings.HasPrefix`. -/
def goStartsWith (s pre : String) : Bool :=
  pre.data.isPrefixOf s.data

/-- Model of `strings.HasSuffix`. -/
def goEndsWith (s suf : String) : Bool :=
  suf.data.reverse.isPrefixOf s.data.reverse

/-- Model of `strings.TrimPrefix`. -/
def goDropStart (s pre : String) : String :=
  if pre.data.isPrefixOf s.data then String.mk (s.data.drop pre.data.length) else s

def listContainsSub : List Char → List Char → Bool
  | [], needle => needle.isPrefixOf []
  | c :: t, needle => needle.isPrefixOf (c :: t) || listContainsSub t needle

/-- Model of `strings.Contains` (substring test). -/
def goContains (s sub : String) : Bool :=
  listContainsSub s.data sub.data

/-- Split a character list at every occurrence of a separator
character, keeping empty segments, as `strings.Split` does for a
one-character separator. -/
def goSplitChar (c : Char) : List Char → List (List Char)
  | [] => [[]]
  | x :: rest =>
    if x = c then [] :: goSplitChar c rest
    else
      match goSplitChar c rest with
      | [] => [[x]]
      | h :: t => (x :: h) :: t

/-- Model of `strings.Split(s, "\n")`. -/
def goSplitLines (s : String) : List String :=
  (goSplitChar '\n' s.data).map String.mk

/-- Split at every character satisfying `p`, keeping empty segments. -/
def goSplitPred (p : Char → Bool) : List Char → List (List Char)
  | [] => [[]]
  | x :: rest =>
    if p x then [] :: goSplitPred p rest
    else
      match goSplitPred p rest with
      | [] => [[x]]
      | h :: t => (x :: h) :: t

/-- Model of `strings.Fields`: split around runs of white space,
returning only the non-empty segments. -/
def goFields (s : String) : List String :=
  ((goSplitPred uniIsSpace s.data).filter (fun l => ¬l.isEmpty)).map String.mk

/-- Model of `strings.Join(l, " ")`. -/
def goJoinSpace (l : List String) : String :=
  String.intercalate " " l

/-- Byte length of a string's UTF-8 encoding, Go's `len` on a string. -/
def charUtf8Size (c : Char) : Nat :=
  if c.toNat ≤ 0x7f then 1
  else if c.toNat ≤ 0x7ff then 2
  else if c.toNat ≤ 0xffff then 3
  else 4

def goLen (s : String) : Nat :=
  s.data.foldl (fun n c => n + charUtf8Size c) 0

/-- Code-point lexicographic comparison of character lists. -/
def goLeList : List Char → List Char → Bool
  | [], _ => true
  | _ :: _, [] => false
  | a :: as, b :: bs =>
    if a.toNat < b.toNat then true
    else if b.toNat < a.toNat then false
    else goLeList as bs

/-- The string order used by `sort.Strings`: Go compares strings by
bytes, which for UTF-8 text coincides with code-point lexicographic
order. -/
def goLeString (a b : String) : Bool :=
  goLeList a.data b.data

/-- The left and right brace characters, and one-character strings
holding them. -/
def lbrace : Char := Char.ofNat 123

def rbrace : Char := Char.ofNat 125

def lbraceStr : String := String.mk [lbrace]

def rbraceStr : String := String.mk [rbrace]

/-! ### Backtracking matcher combinators

The Go program matches its regular expressions with `regexp`'s default
leftmost-first (Perl-style) semantics.  Each combinator takes the
remaining input and a continuation; greedy repetition tries the longer
alternative first and falls back when the continuation fails, which is
exactly the backtracking search order. -/

def orTry {α : Type} (a : Option α) (b : Unit → Option α) : Option α :=
  match a with
  | some r => some r
  | none => b ()

/-- Greedy `\s*` (RE2 space class) with backtracking. -/
def trySpacesStar {α : Type} : List Char → (List Char → Option α) → Option α
  | [], k => k []
  | c :: rest, k =>
    if reSpace c then orTry (trySpacesStar rest k) (fun _ => k (c :: rest))
    else k (c :: rest)

/-- Greedy `C*` over a character class, with backtracking, passing the
captured text to the continuation.  `acc` holds the already-consumed
characters in reverse. -/
def tryClassStar {α : Type} (p : Char → Bool) :
    List Char → List Char → (String → List Char → Option α) → Option α
  | acc, [], k => k (String.mk acc.reverse) []
  | acc, c :: rest, k =>
    if p c then
      orTry (tryClassStar p (c :: acc) rest k)
        (fun _ => k (String.mk acc.reverse) (c :: rest))
    else k (String.mk acc.reverse) (c :: rest)

/-- Greedy `C+` over a character class, with backtracking. -/
def tryClassPlus {α : Type} (p : Char → Bool) (s : List Char)
    (k : String → List Char → Option α) : Option α :=
  match s with
  | [] => none
  | c :: rest => if p c then tryClassStar p [c] rest k else none

/-- Greedy `\s+` with backtracking. -/
def trySpacesPlus {α : Type} (s : List Char) (k : List Char → Option α) : Option α :=
  match s with
  | [] => none
  | c :: rest => if reSpace c then trySpacesStar rest k else none

/-- A literal character. -/
def expectChar {α : Type} (c : Char) (s : List Char) (k : List Char → Option α) : Option α :=
  match s with
  | [] => none
  | c' :: rest => if c' = c then k rest else none

/-- A literal word. -/
def tryWord {α : Type} (w : List Char) (s : List Char) (k : List Char → Option α) : Option α :=
  if w.isPrefixOf s then k (s.drop w.length) else none

/-! ### The function-declaration pattern

Hand compilation of
`(?m)^\s*(?:\[[\w\s,()=.]+\]\s*)*(public|private|protected|internal|static|\s)+([\w<>\[\]]+)\s+(\w+)\s*\(([^)]*)\)`
returning the submatches (return type, function name, parameter text).
The `(?m)^` anchor restricts match starts to the input start and to
positions immediately after a newline. -/

/-- One alternative of `(public|private|protected|internal|static|\s)`. -/
def tryModElem {α : Type} (s : List Char) (k : List Char → Option α) : Option α :=
  orTry (tryWord "public".data s k) (fun _ =>
  orTry (tryWord "private".data s k) (fun _ =>
  orTry (tryWord "protected".data s k) (fun _ =>
  orTry (tryWord "internal".data s k) (fun _ =>
  orTry (tryWord "static".data s k) (fun _ =>
    match s with
    | [] => none
    | c :: rest => if reSpace c then k rest else none)))))

def tryModsStar {α : Type} : Nat → List Char → (List Char → Option α) → Option α
  | 0, s, k => k s
  | fuel + 1, s, k =>
    orTry (tryModElem s (fun s' => tryModsStar fuel s' k)) (fun _ => k s)

/-- Greedy `(public|private|protected|internal|static|\s)+`. -/
def tryModsPlus {α : Type} (fuel : Nat) (s : List Char) (k : List Char → Option α) : Option α :=
  tryModElem s (fun s' => tryModsStar fuel s' k)

/-- One iteration `\[[\w\s,()=.]+\]\s*` of the attribute group. -/
def tryAttrGroup {α : Type} (s : List Char) (k : List Char → Option α) : Option α :=
  expectChar '[' s (fun s1 =>
  tryClassPlus attrBodyChar s1 (fun _ s2 =>
  expectChar ']' s2 (fun s3 =>
  trySpacesStar s3 k)))

def tryAttrStar {α : Type} : Nat → List Char → (List Char → Option α) → Option α
  | 0, s, k => k s
  | fuel + 1, s, k =>
    orTry (tryAttrGroup s (fun s' => tryAttrStar fuel s' k)) (fun _ => k s)

/-- The whole pattern, anchored at the head of the input. -/
def funcMatchHere (s : List Char) : Option (String × String × String) :=
  trySpacesStar s (fun s1 =>
  tryAttrStar (s1.length + 1) s1 (fun s2 =>
  tryModsPlus (s2.length + 1) s2 (fun s3 =>
  tryClassPlus typeChar s3 (fun retType s4 =>
  trySpacesPlus s4 (fun s5 =>
  tryClassPlus wordChar s5 (fun name s6 =>
  trySpacesStar s6 (fun s7 =>
  expectChar '(' s7 (fun s8 =>
  tryClassStar (fun c => ¬c = ')') [] s8 (fun params s9 =>
  expectChar ')' s9 (fun _ => some (retType, name, params)))))))))))

/-- Drop characters up to and including the first newline. -/
def dropAfterNewline : List Char → Option (List Char)
  | [] => none
  | c :: rest => if c = '\n' then some rest else dropAfterNewline rest

def funcSearchAux : Nat → List Char → Option (String × String × String)
  | 0, s => funcMatchHere s
  | fuel + 1, s =>
    orTry (funcMatchHere s) (fun _ =>
      match dropAfterNewline s with
      | none => none
      | some s' => funcSearchAux fuel s')

/-- Model of `functionRegex.FindStringSubmatch(line)`, giving the
(return type, name, parameters) submatches. -/
def funcSearch (line : String) : Option (String × String × String) :=
  funcSearchAux (line.data.length + 1) line.data

/-! ### The attribute pattern `\[(\w+)(?:\([^)]*\))?\]` -/

def attrMatchHere (s : List Char) : Option String :=
  expectChar '[' s (fun s1 =>
  tryClassPlus wordChar s1 (fun name s2 =>
  orTry
    (expectChar '(' s2 (fun s3 =>
     tryClassStar (fun c => ¬c = ')') [] s3 (fun _ s4 =>
     expectChar ')' s4 (fun s5 =>
     expectChar ']' s5 (fun _ => some name)))))
    (fun _ => expectChar ']' s2 (fun _ => some name))))

def attrSearchAux : List Char → Option String
  | [] => attrMatchHere []
  | c :: rest => orTry (attrMatchHere (c :: rest)) (fun _ => attrSearchAux rest)

/-- Model of `attributeRegex.FindStringSubmatch`, giving the captured
attribute name of the leftmost match. -/
def attrSearch (s : String) : Option String :=
  attrSearchAux s.data

/-! ### The namespace pattern `namespace\s+([\w.]+)` -/

def nsMatchHere (s : List Char) : Option String :=
  tryWord "namespace".data s (fun s1 =>
  trySpacesPlus s1 (fun s2 =>
  tryClassPlus nsChar s2 (fun name _ => some name)))

def nsSearchAux : List Char → Option String
  | [] => nsMatchHere []
  | c :: rest => orTry (nsMatchHere (c :: rest)) (fun _ => nsSearchAux rest)

/-- Model of `namespaceRegex.FindStringSubmatch` over the whole file. -/
def namespaceSearch (s : String) : Option String :=
  nsSearchAux s.data

/-! ### The class pattern
`(?:public|private|internal)?\s*(?:sealed|abstract)?\s*(?:partial)?\s*class\s+(\w+)` -/

/-- An optional word alternative (the empty alternative is tried
last, matching the regular expression's `(?:w1|w2)?`). -/
def tryOptWords {α : Type} : List String → List Char → (List Char → Option α) → Option α
  | [], s, k => k s
  | w :: ws, s, k => orTry (tryWord w.data s (fun s' => k s')) (fun _ => tryOptWords ws s k)

def classMatchHere (s : List Char) : Option String :=
  tryOptWords ["public", "private", "internal"] s (fun s1 =>
  trySpacesStar s1 (fun s1b =>
  tryOptWords ["sealed", "abstract"] s1b (fun s2 =>
  trySpacesStar s2 (fun s2b =>
  tryOptWords ["partial"] s2b (fun s3 =>
  trySpacesStar s3 (fun s3b =>
  tryWord "class".data s3b (fun s4 =>
  trySpacesPlus s4 (fun s5 =>
  tryClassPlus wordChar s5 (fun name _ => some name)))))))))

def classSearchAux : List Char → Option String
  | [] => classMatchHere []
  | c :: rest => orTry (classMatchHere (c :: rest)) (fun _ => classSearchAux rest)

/-- Model of `classRegex.FindStringSubmatch` over the whole file. -/
def classSearch (s : String) : Option String :=
  classSearchAux s.data

/-! ### cleanXMLTags

Models the four sequential `ReplaceAllString` passes: the literal
`<summary>` and `</summary>` tags are erased, `<param
name="...">text</param>` is rewritten to `参数: text`, and
`<returns>text</returns>` to `返回: text`, then the result is
trimmed. -/

/-- Global leftmost non-overlapping replacement of a literal pattern,
as `ReplaceAllString` performs for a literal regular expression.  The
fuel is the input length; every replacement consumes at least one
character because the needles used are non-empty. -/
def replaceLitAux (needle repl : List Char) : Nat → List Char → List Char
  | _, [] => []
  | 0, s => s
  | fuel + 1, c :: rest =>
    if needle.isPrefixOf (c :: rest) then
      repl ++ replaceLitAux needle repl fuel ((c :: rest).drop needle.length)
    else c :: replaceLitAux needle repl fuel rest

def replaceLit (needle repl : List Char) (s : List Char) : List Char :=
  replaceLitAux needle repl s.length s

/-- Match `<param name="[^"]+">([^<]*)</param>` at the head of the
input, returning the capture and the rest.  The two bounded character
classes cannot overlap the literals that follow them, so the greedy
match is deterministic. -/
def paramMatchHere (s : List Char) : Option (List Char × List Char) :=
  if ("<param name=" ++ "\"").data.isPrefixOf s then
    let s1 := s.drop 13
    let inner := s1.takeWhile (fun c => ¬c = '"')
    if inner.isEmpty then none
    else
      let s2 := s1.drop inner.length
      if ("\"" ++ ">").data.isPrefixOf s2 then
        let s3 := s2.drop 2
        let cap := s3.takeWhile (fun c => ¬c = '<')
        let s4 := s3.drop cap.length
        if "</param>".data.isPrefixOf s4 then some (cap, s4.drop 8) else none
      else none
  else none

def replaceParamAux : Nat → List Char → List Char
  | _, [] => []
  | 0, s => s
  | fuel + 1, c :: rest =>
    match paramMatchHere (c :: rest) with
    | some (cap, after) => "参数: ".data ++ cap ++ replaceParamAux fuel after
    | none => c :: replaceParamAux fuel rest

/-- Match `<returns>([^<]*)</returns>` at the head of the input. -/
def returnsMatchHere (s : List Char) : Option (List Char × List Char) :=
  if "<returns>".data.isPrefixOf s then
    let s1 := s.drop 9
    let cap := s1.takeWhile (fun c => ¬c = '<')
    let s2 := s1.drop cap.length
    if "</returns>".data.isPrefixOf s2 then some (cap, s2.drop 10) else none
  else none

def replaceReturnsAux : Nat → List Char → List Char
  | _, [] => []
  | 0, s => s
  | fuel + 1, c :: rest =>
    match returnsMatchHere (c :: rest) with
    | some (cap, after) => "返回: ".data ++ cap ++ replaceReturnsAux fuel after
    | none => c :: replaceReturnsAux fuel rest

def cleanXMLTags (s : String) : String :=
  let l1 := replaceLit "<summary>".data [] s.data
  let l2 := replaceLit "</summary>".data [] l1
  let l3 := replaceParamAux l2.length l2
  let l4 := replaceReturnsAux l3.length l3
  goTrimSpace (String.mk l4)

/-! ### splitCamelCase and extractKeywords -/

/-- Loop body of `splitCamelCase`: `cur` is the current word, `ws` the
words flushed so far.  A boundary occurs at an ASCII uppercase letter
that is not the first rune; each flushed word is lower-cased. -/
def splitCamelCaseAux : List Char → List Char → List String → List String
  | [], cur, ws => if cur.isEmpty then ws else ws ++ [goToLower (String.mk cur)]
  | r :: rest, cur, ws =>
    if 65 ≤ r.toNat ∧ r.toNat ≤ 90 then
      if cur.isEmpty then splitCamelCaseAux rest [r] ws
      else splitCamelCaseAux rest [r] (ws ++ [goToLower (String.mk cur)])
    else splitCamelCaseAux rest (cur ++ [r]) ws

def splitCamelCase (s : String) : List String :=
  match s.data with
  | [] => []
  | c :: rest => splitCamelCaseAux rest [c] []

/-- An abstract model of the operations `extractKeywords` performs on
its `map[string]bool` set of seen keywords: an empty set, insertion
(`keywordMap[kw] = true`) and lookup (`keywordMap[kw]`, whose Go
default for a missing key is `false`), together with the two map laws
those operations satisfy.  The Go map's only implementation-dependent
behaviour, iteration order, is never exercised by the code. -/
structure GoStringSet where
  σ : Type
  empty : σ
  insert : σ → String → σ
  contains : σ → String → Bool
  contains_empty : ∀ k, contains empty k = false
  contains_insert : ∀ m kw k, contains (insert m kw) k = (k == kw || contains m k)

/-- The deduplication loop of `extractKeywords`: keep a keyword when
it is not yet in the seen set and non-empty. -/
def goDedupGen (S : GoStringSet) : S.σ → List String → List String
  | _, [] => []
  | m, kw :: rest =>
    if !S.contains m kw && !(kw == "") then kw :: goDedupGen S (S.insert m kw) rest
    else goDedupGen S m rest

/-- The list-backed instantiation of the seen-keyword set. -/
def listSetImpl : GoStringSet where
  σ := List String
  empty := []
  insert m k := k :: m
  contains m k := m.contains k
  contains_empty := fun _ => rfl
  contains_insert := fun _ _ _ => rfl

/-- The comment-derived keywords: join the comment lines with spaces,
split into fields, drop tokens whose byte length is at most 1, and
lower-case the rest. -/
def commentTokens (comments : List String) : List String :=
  ((goFields (goJoinSpace comments)).filter (fun w => 1 < goLen w)).map goToLower

/-- The keyword sequence before deduplication: camel-case fragments of
the function name, then the comment tokens. -/
def rawKeywords (name : String) (comments : List String) : List String :=
  splitCamelCase name ++ commentTokens comments

def extractKeywordsGen (S : GoStringSet) (name : String) (comments : List String) : List String :=
  goDedupGen S S.empty (rawKeywords name comments)

/-- Model of `extractKeywords`. -/
def extractKeywords (name : String) (comments : List String) : List String :=
  extractKeywordsGen listSetImpl name comments

/-! ### The data model and ParseFile -/

structure FunctionInfo where
  FileName : String
  FilePath : String
  RelativePath : String
  Namespace : String
  ClassName : String
  FuncName : String
  Comments : List String
  Signature : String
  IsUnityEvent : Bool
  IsCoroutine : Bool
  Attributes : List String
  Keywords : List String
deriving DecidableEq, Repr, Inhabited

/-- The fixed reserved Unity event names of `NewUnityParser` (every
entry of the Go map literal carries the value `true`). -/
def unityEventNames : List String :=
  ["Awake", "Start", "Update", "FixedUpdate",
   "LateUpdate", "OnEnable", "OnDisable", "OnDestroy",
   "OnCollisionEnter", "OnCollisionExit", "OnCollisionStay",
   "OnTriggerEnter", "OnTriggerExit", "OnTriggerStay",
   "OnMouseDown", "OnMouseUp", "OnMouseEnter", "OnMouseExit",
   "OnGUI", "OnApplicationQuit", "OnApplicationPause",
   "OnBecameVisible", "OnBecameInvisible"]

/-- Model of `p.unityEvents[funcName]` (missing keys default to
`false`). -/
def unityEventsLookup (n : String) : Bool :=
  unityEventNames.contains n

/-- The per-file context fixed before the line scan: file identity and
the namespace/class resolved once over the whole file text. -/
structure ParseCtx where
  fileName : String
  filePath : String
  relPath : String
  ns : String
  cls : String
deriving DecidableEq, Repr

/-- The rolling state of the line scan: the pending comment and
attribute accumulators and the emitted records. -/
structure ScanState where
  comments : List String
  attrs : List String
  out : List FunctionInfo
deriving DecidableEq, Repr

/-- One iteration of the `ParseFile` line loop. -/
def scanStep (ctx : ParseCtx) (st : ScanState) (line : String) : ScanState :=
  let trimmed := goTrimSpace line
  if goStartsWith trimmed "[" && goEndsWith trimmed "]" then
    match attrSearch trimmed with
    | some nm => { st with attrs := st.attrs ++ [nm] }
    | none => st
  else if goStartsWith trimmed "///" then
    let comment := cleanXMLTags (goTrimSpace (goDropStart trimmed "///"))
    if !(comment == "") then { st with comments := st.comments ++ [comment] } else st
  else if goStartsWith trimmed "//" then
    let comment := goTrimSpace (goDropStart trimmed "//")
    if !(comment == "") && !goStartsWith comment "/" then
      { st with comments := st.comments ++ [comment] }
    else st
  else
    match funcSearch line with
    | some (retType, funcName, _params) =>
      { comments := [], attrs := [],
        out := st.out ++ [{
          FileName := ctx.fileName, FilePath := ctx.filePath,
          RelativePath := ctx.relPath, Namespace := ctx.ns, ClassName := ctx.cls,
          FuncName := funcName, Comments := st.comments, Signature := trimmed,
          IsUnityEvent := unityEventsLookup funcName,
          IsCoroutine := goContains retType "IEnumerator",
          Attributes := st.attrs,
          Keywords := extractKeywords funcName st.comments }] }
    | none =>
      if !(trimmed == "") && !goStartsWith trimmed "//" && !goStartsWith trimmed "[" &&
          !goContains trimmed lbraceStr && !goContains trimmed rbraceStr then
        { st with comments := [], attrs := [] }
      else st

def scanFold (ctx : ParseCtx) (st : ScanState) (lines : List String) : ScanState :=
  lines.foldl (scanStep ctx) st

/-- Lexical model of `filepath.Base` for slash-separated paths. -/
def goFilepathBase (p : String) : String :=
  if p = "" then "." else
    match (((goSplitChar '/' p.data).map String.mk).filter (fun x => ¬x = "")).getLast? with
    | some l => l
    | none => "/"

def dropCommonPathPrefix : List String → List String → List String × List String
  | a :: as, b :: bs => if a = b then dropCommonPathPrefix as bs else (a :: as, b :: bs)
  | as, bs => (as, bs)

/-- Lexical model of `filepath.Rel` for clean slash-separated paths
(the error case, which `ParseFile` ignores, is not modelled). -/
def goFilepathRel (basePath targetPath : String) : String :=
  let b := ((goSplitChar '/' basePath.data).map String.mk).filter (fun x => ¬x = "" ∧ ¬x = ".")
  let t := ((goSplitChar '/' targetPath.data).map String.mk).filter (fun x => ¬x = "" ∧ ¬x = ".")
  let p := dropCommonPathPrefix b t
  let segs := p.1.map (fun _ => "..") ++ p.2
  if segs.isEmpty then "." else String.intercalate "/" segs

/-- Model of `ParseFile`: `os.ReadFile` is modelled by passing the
file's text as the `content` argument (the read-failure path is
modelled in the project scanner). -/
def parseFile (filePath rootPath content : String) : List FunctionInfo :=
  let ctx : ParseCtx := {
    fileName := goFilepathBase filePath,
    filePath := filePath,
    relPath := goFilepathRel rootPath filePath,
    ns := (namespaceSearch content).getD "",
    cls := (classSearch content).getD "" }
  (scanFold ctx ⟨[], [], []⟩ (goSplitLines content)).out

/-! ### ScanUnityProject

The filesystem interaction is modelled by an explicit event list: each
event is either a `filepath.Walk` callback invocation carrying a
traversal error, or a visited entry with its path, directory flag and
content (`none` models an unreadable file, the only error source of
`ParseFile`).  The `os.Stat` check for the `Assets` directory is
modelled by the `assetsDirExists` flag.  `fmt.Printf` warnings are
collected into a string list. -/

inductive GoErr where
  | notAProjectRoot
  | walkFailure (msg : String)
deriving DecidableEq, Repr

inductive WalkEntry where
  | errEvent (path msg : String)
  | fileEvent (path : String) (isDir : Bool) (content : Option String)
deriving DecidableEq, Repr

/-- The warning printed for a file whose read/parse failed (the
formatted error value is abstracted away; the path is kept). -/
def warnMsg (path : String) : String :=
  "⚠️  解析失败 " ++ path

/-- Whether a walk event carries a traversal error. -/
def isErrEvent : WalkEntry → Bool
  | WalkEntry.errEvent _ _ => true
  | WalkEntry.fileEvent _ _ _ => false

def walkGo (rootPath : String) :
    List FunctionInfo → List String → List WalkEntry →
    List FunctionInfo × List String × Option GoErr
  | recs, warns, [] => (recs, warns, none)
  | recs, warns, WalkEntry.errEvent _ msg :: _ => (recs, warns, some (GoErr.walkFailure msg))
  | recs, warns, WalkEntry.fileEvent path isDir content :: rest =>
    if ¬isDir ∧ goEndsWith path ".cs" then
      match content with
      | none => walkGo rootPath recs (warns ++ [warnMsg path]) rest
      | some text => walkGo rootPath (recs ++ parseFile path rootPath text) warns rest
    else walkGo rootPath recs warns rest

/-- Model of `ScanUnityProject`, returning the accumulated records,
the printed warnings, and the returned error (mirroring the Go pair
`([]FunctionInfo, error)`). -/
def scanUnityProject (projectPath : String) (assetsDirExists : Bool)
    (entries : List WalkEntry) : List FunctionInfo × List String × Option GoErr :=
  if assetsDirExists then walkGo projectPath [] [] entries
  else ([], [], some GoErr.notAProjectRoot)

/-! ### GenerateUnityMarkdown -/

/-- The category of a record: the first path segment of its relative
path when the path contains a separator, otherwise the catch-all
category `其他`. -/
def categoryOf (fn : FunctionInfo) : String :=
  let parts := (goSplitChar '/' fn.RelativePath.data).map String.mk
  if 1 < parts.length then parts.headD "" else "其他"

/-- The class grouping key: an empty class name maps to `全局函数`. -/
def displayClassOf (fn : FunctionInfo) : String :=
  if fn.ClassName = "" then "全局函数" else fn.ClassName

/-- Model of `sort.Strings`.  The keys sorted by the renderer are
duplicate-free, so any correct sort produces the same list. -/
def sortStrings (l : List String) : List String :=
  List.insertionSort (fun a b => goLeString a b = true) l

def categoriesSorted (fns : List FunctionInfo) : List String :=
  sortStrings (fns.map categoryOf).dedup

def classNamesSorted (fns : List FunctionInfo) : List String :=
  sortStrings (fns.map displayClassOf).dedup

/-- The grouped emission order of the renderer: the sorted categories,
each with its sorted class names, each with that class's records in
input order (Go's maps-of-slices grouping appends in input order, so a
group is the order-preserving filter of the input). -/
def renderOrder (fns : List FunctionInfo) :
    List (String × List (String × List FunctionInfo)) :=
  (categoriesSorted fns).map (fun cat =>
    (cat, (classNamesSorted (fns.filter (fun f => categoryOf f == cat))).map (fun cn =>
      (cn, (fns.filter (fun f => categoryOf f == cat)).filter (fun f => displayClassOf f == cn)))))

def markersOf (fn : FunctionInfo) : List String :=
  (if fn.IsUnityEvent then ["🎯Unity事件"] else []) ++
  (if fn.IsCoroutine then ["⏱️协程"] else [])

def renderFunction (fn : FunctionInfo) : String :=
  let markers := markersOf fn
  let markerStr := if markers.isEmpty then "" else " " ++ String.intercalate " " markers
  "#### `" ++ fn.FuncName ++ "`" ++ markerStr ++ "\n\n"
  ++ (if fn.Attributes.isEmpty then "" else
      "**特性**: " ++ String.intercalate ", " (fn.Attributes.map (fun a => "`[" ++ a ++ "]`")) ++ "\n\n")
  ++ "```csharp\n" ++ fn.Signature ++ "\n```\n\n"
  ++ (if fn.Comments.isEmpty then "" else
      "**📝 说明**:\n"
      ++ String.join (fn.Comments.map (fun c =>
           if ¬goTrimSpace c = "" then "> " ++ c ++ "\n" else ""))
      ++ "\n")
  ++ (if fn.Keywords.isEmpty then "" else
      "**🔑 关键词**: `" ++ String.intercalate "` `" (fn.Keywords.take 8) ++ "`\n\n")
  ++ "---\n\n"

def renderClass (className : String) (classFns : List FunctionInfo) : String :=
  "### 🔸 类: `" ++ className ++ "`\n\n"
  ++ (match classFns with
      | [] => ""
      | f :: _ => "📄 文件: `" ++ f.RelativePath ++ "`\n\n")
  ++ String.join (classFns.map renderFunction)

def renderCategory (cat : String) (classes : List (String × List FunctionInfo))
    (catCount : Nat) : String :=
  "## 📁 " ++ cat ++ "\n\n> 包含 " ++ toString catCount ++ " 个函数\n\n"
  ++ String.join (classes.map (fun p => renderClass p.1 p.2))

def anchorOf (cat : String) : String :=
  goToLower (String.mk (cat.data.map (fun c => if c = ' ' then '-' else c)))

/-- Model of `GenerateUnityMarkdown`, producing the document text (the
final `os.WriteFile` is the caller's storage step and is not part of
the text computation). -/
def generateUnityMarkdown (functions : List FunctionInfo) : String :=
  let unityEventCount := (functions.filter (fun f => f.IsUnityEvent)).length
  let coroutineCount := (functions.filter (fun f => f.IsCoroutine)).length
  let ro := renderOrder functions
  "# Unity 项目函数索引\n\n"
  ++ "> 🤖 本文档由AI索引工具自动生成，用于快速定位功能函数\n\n"
  ++ "**📊 统计信息**:\n"
  ++ "- 总函数数: " ++ toString functions.length ++ "\n"
  ++ "- Unity生命周期函数: " ++ toString unityEventCount ++ "\n"
  ++ "- 协程函数: " ++ toString coroutineCount ++ "\n\n"
  ++ "---\n\n"
  ++ "## 🔍 快速导航\n\n"
  ++ String.join (ro.map (fun p =>
       "- [📁 " ++ p.1 ++ " ("
       ++ toString (functions.filter (fun f => categoryOf f == p.1)).length
       ++ ")](#" ++ anchorOf p.1 ++ ")\n"))
  ++ "\n---\n\n"
  ++ String.join (ro.map (fun p =>
       renderCategory p.1 p.2 (functions.filter (fun f => categoryOf f == p.1)).length))
  ++ "## 💡 使用提示\n\n"
  ++ "本文档支持以下搜索方式：\n\n"
  ++ "1. **按功能搜索**: 使用关键词如 \"移动\"、\"攻击\"、\"UI\" 等\n"
  ++ "2. **按类型搜索**: 搜索 \"Unity事件\"、\"协程\" 等标记\n"
  ++ "3. **按文件路径搜索**: 使用目录名定位\n"
  ++ "4. **按类名/函数名搜索**: 直接搜索代码标识符\n\n"
  ++ "> 💡 提示: 使用 Ctrl+F 在文档中搜索，或将此文档提供给AI助手进行智能查询\n"

/-! ### GenerateJSON -/

/-- Model of `GenerateJSON`: the Go function builds its simplified
record list, then — the serialization being left unimplemented —
returns `nil` without writing anything.  The result pairs the returned
error with the list of (path, contents) writes performed. -/
def generateJSON (functions : List FunctionInfo) (outputPath : String) :
    Option String × List (String × String) :=
  let _simplified := functions.map (fun fn =>
    (fn.ClassName, fn.FuncName, fn.RelativePath, fn.Comments, fn.Keywords, fn.IsUnityEvent))
  let _path := outputPath
  (none, [])

/-! ### Concrete records used to exercise the renderer on closed input -/

def demoRecordA : FunctionInfo :=
  { FileName := "a.cs", FilePath := "p/Assets/a.cs", RelativePath := "Assets/a.cs",
    Namespace := "", ClassName := "", FuncName := "F", Comments := [],
    Signature := "void F()", IsUnityEvent := false, IsCoroutine := false,
    Attributes := [], Keywords := ["f"] }

def demoRecordB : FunctionInfo :=
  { FileName := "b.cs", FilePath := "b.cs", RelativePath := "b.cs",
    Namespace := "", ClassName := "Zed", FuncName := "Update", Comments := ["tick"],
    Signature := "void Update()", IsUnityEvent := true, IsCoroutine := false,
    Attributes := [], Keywords := ["update", "tick"] }

/-! ### Derived predicates used in the statements below -/

/-- A line that produces a record: it is matched by the
function-declaration pattern and is not consumed by the earlier
attribute branch (trimmed form bracket-delimited) or comment branches
(trimmed form starting with `//`). -/
def emitsRecord (ℓ : String) : Bool :=
  (funcSearch ℓ).isSome &&
  !(goStartsWith (goTrimSpace ℓ) "[" && goEndsWith (goTrimSpace ℓ) "]") &&
  !goStartsWith (goTrimSpace ℓ) "//"

/-- Reference form of the keyword-deduplication loop with the seen
set represented canonically as the list of kept keywords. -/
def goDedupRef : List String → List String → List String
  | _, [] => []
  | seen, kw :: rest =>
    if !seen.contains kw && !(kw == "") then kw :: goDedupRef (kw :: seen) rest
    else goDedupRef seen rest

/-! ## Supporting lemmas -/

lemma char_toNat_ofNat {n : Nat} (h : n.isValidChar) : (Char.ofNat n).toNat = n := by
  simp [Char.ofNat, Char.ofNatAux, Char.toNat, h, UInt32.toNat, BitVec.toNat_ofNatLt]

lemma toLowerChar_toNat (c : Char) :
    (toLowerChar c).toNat = if 65 ≤ c.toNat ∧ c.toNat ≤ 90 then c.toNat + 32 else c.toNat := by
  unfold toLowerChar
  split
  case isTrue h => exact char_toNat_ofNat (Or.inl (by omega))
  case isFalse h => rfl

lemma toLowerChar_fixpoint (c : Char) (h : ¬(65 ≤ c.toNat ∧ c.toNat ≤ 90)) :
    toLowerChar c = c := by
  unfold toLowerChar
  rw [if_neg h]

lemma toLowerChar_idem (c : Char) : toLowerChar (toLowerChar c) = toLowerChar c := by
  by_cases h : 65 ≤ c.toNat ∧ c.toNat ≤ 90
  · have hx : (toLowerChar c).toNat = c.toNat + 32 := by rw [toLowerChar_toNat, if_pos h]
    exact toLowerChar_fixpoint _ (by omega)
  · rw [toLowerChar_fixpoint c h]
    exact toLowerChar_fixpoint c h

lemma goToLower_idem (s : String) : goToLower (goToLower s) = goToLower s := by
  unfold goToLower
  rw [List.map_map]
  exact congrArg String.mk (List.map_congr_left (fun c _ => toLowerChar_idem c))

lemma charUtf8Size_toLowerChar (c : Char) :
    charUtf8Size (toLowerChar c) = charUtf8Size c := by
  have h := toLowerChar_toNat c
  unfold charUtf8Size
  rw [h]
  by_cases hc : 65 ≤ c.toNat ∧ c.toNat ≤ 90
  · rw [if_pos hc, if_pos (by omega), if_pos (by omega)]
  · rw [if_neg hc]

lemma goLen_foldl_map (l : List Char) :
    ∀ n : Nat, (l.map toLowerChar).foldl (fun n c => n + charUtf8Size c) n
      = l.foldl (fun n c => n + charUtf8Size c) n := by
  induction l with
  | nil => intro n; rfl
  | cons c rest ih =>
    intro n
    simp only [List.map_cons, List.foldl_cons, charUtf8Size_toLowerChar]
    exact ih _

lemma goLen_goToLower (s : String) : goLen (goToLower s) = goLen s := by
  unfold goLen goToLower
  exact goLen_foldl_map s.data 0

lemma string_ne_iff_data_ne {s : String} : ¬s = "" ↔ s.data ≠ [] := by
  cases s
  simp [String.ext_iff]

/-! ### Suffix lemmas for the matcher combinators

Every combinator hands its continuation a suffix of its input; a
successful `funcMatchHere` therefore consumed a literal `(`.  These
lemmas let us conclude that lines without `(` can never match the
function-declaration pattern. -/

lemma orTry_eq_some {α : Type} {a : Option α} {b : Unit → Option α} {r : α}
    (h : orTry a b = some r) : a = some r ∨ b () = some r := by
  unfold orTry at h
  cases a
  · exact Or.inr h
  · exact Or.inl h

lemma trySpacesStar_some {α : Type} :
    ∀ (s : List Char) (k : List Char → Option α) (r : α),
      trySpacesStar s k = some r → ∃ s', s' <:+ s ∧ k s' = some r := by
  intro s
  induction s with
  | nil => intro k r h; exact ⟨[], List.suffix_refl [], h⟩
  | cons c rest ih =>
    intro k r h
    unfold trySpacesStar at h
    by_cases hc : reSpace c
    · rw [if_pos hc] at h
      rcases orTry_eq_some h with h' | h'
      · obtain ⟨s', hs, hk⟩ := ih k r h'
        exact ⟨s', hs.trans (List.suffix_cons c rest), hk⟩
      · exact ⟨c :: rest, List.suffix_refl _, h'⟩
    · rw [if_neg hc] at h
      exact ⟨c :: rest, List.suffix_refl _, h⟩

lemma tryClassStar_some {α : Type} (p : Char → Bool) :
    ∀ (s acc : List Char) (k : String → List Char → Option α) (r : α),
      tryClassStar p acc s k = some r → ∃ cap s', s' <:+ s ∧ k cap s' = some r := by
  intro s
  induction s with
  | nil => intro acc k r h; exact ⟨_, [], List.suffix_refl [], h⟩
  | cons c rest ih =>
    intro acc k r h
    unfold tryClassStar at h
    by_cases hc : p c
    · rw [if_pos hc] at h
      rcases orTry_eq_some h with h' | h'
      · obtain ⟨cap, s', hs, hk⟩ := ih (c :: acc) k r h'
        exact ⟨cap, s', hs.trans (List.suffix_cons c rest), hk⟩
      · exact ⟨_, c :: rest, List.suffix_refl _, h'⟩
    · rw [if_neg hc] at h
      exact ⟨_, c :: rest, List.suffix_refl _, h⟩

lemma tryClassPlus_some {α : Type} (p : Char → Bool) (s : List Char)
    (k : String → List Char → Option α) (r : α)
    (h : tryClassPlus p s k = some r) : ∃ cap s', s' <:+ s ∧ k cap s' = some r := by
  cases s with
  | nil => simp [tryClassPlus] at h
  | cons c rest =>
    simp only [tryClassPlus] at h
    by_cases hc : p c
    · rw [if_pos hc] at h
      obtain ⟨cap, s', hs, hk⟩ := tryClassStar_some p rest [c] k r h
      exact ⟨cap, s', hs.trans (List.suffix_cons c rest), hk⟩
    · rw [if_neg hc] at h
      exact absurd h (by simp)

lemma trySpacesPlus_some {α : Type} (s : List Char) (k : List Char → Option α) (r : α)
    (h : trySpacesPlus s k = some r) : ∃ s', s' <:+ s ∧ k s' = some r := by
  cases s with
  | nil => simp [trySpacesPlus] at h
  | cons c rest =>
    simp only [trySpacesPlus] at h
    by_cases hc : reSpace c
    · rw [if_pos hc] at h
      obtain ⟨s', hs, hk⟩ := trySpacesStar_some rest k r h
      exact ⟨s', hs.trans (List.suffix_cons c rest), hk⟩
    · rw [if_neg hc] at h
      exact absurd h (by simp)

lemma expectChar_some {α : Type} {c : Char} {s : List Char} {k : List Char → Option α} {r : α}
    (h : expectChar c s k = some r) : ∃ s', s = c :: s' ∧ k s' = some r := by
  cases s with
  | nil => simp [expectChar] at h
  | cons c' rest =>
    simp only [expectChar] at h
    by_cases hc : c' = c
    · rw [if_pos hc] at h
      exact ⟨rest, by rw [hc], h⟩
    · rw [if_neg hc] at h
      exact absurd h (by simp)

lemma tryWord_some {α : Type} {w s : List Char} {k : List Char → Option α} {r : α}
    (h : tryWord w s k = some r) : ∃ s', s' <:+ s ∧ k s' = some r := by
  unfold tryWord at h
  by_cases hp : w.isPrefixOf s
  · rw [if_pos hp] at h
    exact ⟨s.drop w.length, List.drop_suffix _ _, h⟩
  · rw [if_neg hp] at h
    exact absurd h (by simp)

lemma tryModElem_some_suffix {α : Type} {s : List Char} {k : List Char → Option α} {r : α}
    (h : tryModElem s k = some r) : ∃ s', s' <:+ s ∧ k s' = some r := by
  unfold tryModElem at h
  rcases orTry_eq_some h with h1 | h1
  · exact tryWord_some h1
  rcases orTry_eq_some h1 with h2 | h2
  · exact tryWord_some h2
  rcases orTry_eq_some h2 with h3 | h3
  · exact tryWord_some h3
  rcases orTry_eq_some h3 with h4 | h4
  · exact tryWord_some h4
  rcases orTry_eq_some h4 with h5 | h5
  · exact tryWord_some h5
  cases s with
  | nil => simp at h5
  | cons c rest =>
    simp only at h5
    by_cases hc : reSpace c
    · rw [if_pos hc] at h5
      exact ⟨rest, List.suffix_cons c rest, h5⟩
    · rw [if_neg hc] at h5
      exact absurd h5 (by simp)

lemma tryModsStar_some {α : Type} :
    ∀ (fuel : Nat) (s : List Char) (k : List Char → Option α) (r : α),
      tryModsStar fuel s k = some r → ∃ s', s' <:+ s ∧ k s' = some r := by
  intro fuel
  induction fuel with
  | zero => intro s k r h; exact ⟨s, List.suffix_refl s, h⟩
  | succ n ih =>
    intro s k r h
    unfold tryModsStar at h
    rcases orTry_eq_some h with h' | h'
    · obtain ⟨s1, hs1, hk1⟩ := tryModElem_some_suffix h'
      obtain ⟨s2, hs2, hk2⟩ := ih s1 k r hk1
      exact ⟨s2, hs2.trans hs1, hk2⟩
    · exact ⟨s, List.suffix_refl s, h'⟩

lemma tryModsPlus_some {α : Type} {fuel : Nat} {s : List Char} {k : List Char → Option α} {r : α}
    (h : tryModsPlus fuel s k = some r) : ∃ s', s' <:+ s ∧ k s' = some r := by
  unfold tryModsPlus at h
  obtain ⟨s1, hs1, hk1⟩ := tryModElem_some_suffix h
  obtain ⟨s2, hs2, hk2⟩ := tryModsStar_some fuel s1 k r hk1
  exact ⟨s2, hs2.trans hs1, hk2⟩

lemma tryAttrGroup_some {α : Type} {s : List Char} {k : List Char → Option α} {r : α}
    (h : tryAttrGroup s k = some r) : ∃ s', s' <:+ s ∧ k s' = some r := by
  unfold tryAttrGroup at h
  obtain ⟨s1, hs1, hk1⟩ := expectChar_some h
  obtain ⟨cap, s2, hs2, hk2⟩ := tryClassPlus_some _ _ _ _ hk1
  obtain ⟨s3, hs3, hk3⟩ := expectChar_some hk2
  obtain ⟨s4, hs4, hk4⟩ := trySpacesStar_some _ _ _ hk3
  refine ⟨s4, ?_, hk4⟩
  have h3 : s3 <:+ s2 := by rw [hs3]; exact List.suffix_cons ']' s3
  have h1 : s1 <:+ s := by rw [hs1]; exact List.suffix_cons '[' s1
  exact ((hs4.trans h3).trans hs2).trans h1

lemma tryAttrStar_some {α : Type} :
    ∀ (fuel : Nat) (s : List Char) (k : List Char → Option α) (r : α),
      tryAttrStar fuel s k = some r → ∃ s', s' <:+ s ∧ k s' = some r := by
  intro fuel
  induction fuel with
  | zero => intro s k r h; exact ⟨s, List.suffix_refl s, h⟩
  | succ n ih =>
    intro s k r h
    unfold tryAttrStar at h
    rcases orTry_eq_some h with h' | h'
    · obtain ⟨s1, hs1, hk1⟩ := tryAttrGroup_some h'
      obtain ⟨s2, hs2, hk2⟩ := ih s1 k r hk1
      exact ⟨s2, hs2.trans hs1, hk2⟩
    · exact ⟨s, List.suffix_refl s, h'⟩

/-- A successful anchored match of the function-declaration pattern
consumed a literal `(` from its input. -/
lemma funcMatchHere_some_paren {s : List Char} {r : String × String × String}
    (h : funcMatchHere s = some r) : '(' ∈ s := by
  unfold funcMatchHere at h
  obtain ⟨s1, hs1, hk1⟩ := trySpacesStar_some _ _ _ h
  obtain ⟨s2, hs2, hk2⟩ := tryAttrStar_some _ _ _ _ hk1
  obtain ⟨s3, hs3, hk3⟩ := tryModsPlus_some hk2
  obtain ⟨cap4, s4, hs4, hk4⟩ := tryClassPlus_some _ _ _ _ hk3
  obtain ⟨s5, hs5, hk5⟩ := trySpacesPlus_some _ _ _ hk4
  obtain ⟨cap6, s6, hs6, hk6⟩ := tryClassPlus_some _ _ _ _ hk5
  obtain ⟨s7, hs7, hk7⟩ := trySpacesStar_some _ _ _ hk6
  obtain ⟨s8, hs8, _⟩ := expectChar_some hk7
  have hmem : '(' ∈ s7 := by rw [hs8]; exact List.mem_cons_self '(' s8
  have hsuf : s7 <:+ s :=
    ((((((hs7.trans hs6).trans hs5).trans hs4).trans hs3).trans hs2).trans hs1)
  exact hsuf.subset hmem

lemma dropAfterNewline_suffix :
    ∀ {s s' : List Char}, dropAfterNewline s = some s' → s' <:+ s := by
  intro s
  induction s with
  | nil => intro s' h; exact absurd h (by simp [dropAfterNewline])
  | cons c rest ih =>
    intro s' h
    unfold dropAfterNewline at h
    by_cases hc : c = '\n'
    · rw [if_pos hc] at h
      cases h
      exact List.suffix_cons c rest
    · rw [if_neg hc] at h
      exact (ih h).trans (List.suffix_cons c rest)

lemma funcSearchAux_some_paren :
    ∀ (fuel : Nat) {s : List Char} {r : String × String × String},
      funcSearchAux fuel s = some r → '(' ∈ s := by
  intro fuel
  induction fuel with
  | zero => intro s r h; exact funcMatchHere_some_paren h
  | succ n ih =>
    intro s r h
    unfold funcSearchAux at h
    rcases orTry_eq_some h with h' | h'
    · exact funcMatchHere_some_paren h'
    · cases hd : dropAfterNewline s with
      | none => rw [hd] at h'; exact absurd h' (by simp)
      | some s' =>
        rw [hd] at h'
        exact (dropAfterNewline_suffix hd).subset (ih h')

/-- A line matched by the function-declaration pattern contains `(`. -/
lemma funcSearch_some_paren {line : String} {r : String × String × String}
    (h : funcSearch line = some r) : '(' ∈ line.data :=
  funcSearchAux_some_paren _ h

/-! ### Trimming decomposes a line into spaces and its trimmed core -/

lemma trimList_mem {l : List Char} {c : Char} (h : c ∈ l) :
    uniIsSpace c = true ∨ c ∈ trimList l := by
  unfold trimList
  rw [← List.takeWhile_append_dropWhile uniIsSpace l] at h
  rcases List.mem_append.mp h with h1 | h1
  · exact Or.inl (List.mem_takeWhile_imp h1)
  · set d := l.dropWhile uniIsSpace with hd
    have h2 : c ∈ d.reverse := List.mem_reverse.mpr h1
    rw [← List.takeWhile_append_dropWhile uniIsSpace d.reverse] at h2
    rcases List.mem_append.mp h2 with h3 | h3
    · exact Or.inl (List.mem_takeWhile_imp h3)
    · exact Or.inr (List.mem_reverse.mpr h3)

lemma mem_trim_or_space {s : String} {c : Char} (h : c ∈ s.data) :
    uniIsSpace c = true ∨ c ∈ (goTrimSpace s).data :=
  trimList_mem h

/-! ### Single-character substring containment -/

lemma listContainsSub_single {l : List Char} {c : Char} (h : c ∈ l) :
    listContainsSub l [c] = true := by
  induction l with
  | nil => exact absurd h (by simp)
  | cons x rest ih =>
    unfold listContainsSub
    rcases List.mem_cons.mp h with h1 | h1
    · subst h1
      simp [List.isPrefixOf]
    · rw [ih h1]
      simp

lemma goContains_single {s : String} {c : Char} (hc : c ∈ s.data) :
    goContains s (String.mk [c]) = true :=
  listContainsSub_single hc

/-! ### Behaviour of one scan step on blank, brace-only and statement lines -/

lemma goStartsWith_false_of_head {s pre : String} {x y : Char} {t u : List Char}
    (hs : s.data = x :: t) (hp : pre.data = y :: u) (hne : ¬y = x) :
    goStartsWith s pre = false := by
  unfold goStartsWith
  rw [hs, hp]
  show (y == x && u.isPrefixOf t) = false
  rw [beq_eq_false_iff_ne.mpr hne, Bool.false_and]

lemma goStartsWith_three_of_two {s : String} (h : goStartsWith s "///" = true) :
    goStartsWith s "//" = true := by
  unfold goStartsWith at h ⊢
  rw [List.isPrefixOf_iff_prefix] at h ⊢
  exact List.IsPrefix.trans (by decide) h

lemma funcSearch_none_of_no_paren {line : String} (h : '(' ∉ line.data) :
    funcSearch line = none := by
  cases hfs : funcSearch line with
  | none => rfl
  | some r => exact absurd (funcSearch_some_paren hfs) h

/-- A pure blank line (its trimmed form is empty) leaves the scan
state untouched. -/
lemma scanStep_of_blank (ctx : ParseCtx) (st : ScanState) (line : String)
    (h : goTrimSpace line = "") : scanStep ctx st line = st := by
  have hf : funcSearch line = none := by
    apply funcSearch_none_of_no_paren
    intro hp
    rcases mem_trim_or_space hp with hsp | hmem
    · exact absurd hsp (by decide)
    · rw [h] at hmem
      simp at hmem
  have e1 : goStartsWith "" "[" = false := by decide
  have e2 : goStartsWith "" "///" = false := by decide
  have e3 : goStartsWith "" "//" = false := by decide
  simp [scanStep, h, hf, e1, e2, e3]

/-- A line whose trimmed form is non-empty but consists solely of
brace characters leaves the scan state untouched. -/
lemma scanStep_of_braceOnly (ctx : ParseCtx) (st : ScanState) (line : String)
    (hne : ¬goTrimSpace line = "")
    (hbr : ∀ c ∈ (goTrimSpace line).data, c = lbrace ∨ c = rbrace) :
    scanStep ctx st line = st := by
  obtain ⟨x, t, hd⟩ := List.exists_cons_of_ne_nil (string_ne_iff_data_ne.mp hne)
  have hx : x = lbrace ∨ x = rbrace := hbr x (by rw [hd]; exact List.mem_cons_self x t)
  have hxb : ¬('[' = x) ∧ ¬('/' = x) := by
    rcases hx with h | h <;> rw [h] <;> exact ⟨by decide, by decide⟩
  have e1 : goStartsWith (goTrimSpace line) "[" = false :=
    goStartsWith_false_of_head hd rfl hxb.1
  have e2 : goStartsWith (goTrimSpace line) "///" = false :=
    goStartsWith_false_of_head hd rfl hxb.2
  have e3 : goStartsWith (goTrimSpace line) "//" = false :=
    goStartsWith_false_of_head hd rfl hxb.2
  have hf : funcSearch line = none := by
    apply funcSearch_none_of_no_paren
    intro hp
    rcases mem_trim_or_space hp with hsp | hmem
    · exact absurd hsp (by decide)
    · rcases hbr '(' hmem with h | h <;> exact absurd h (by decide)
  rcases hx with h | h
  · have hc : goContains (goTrimSpace line) lbraceStr = true := by
      have := goContains_single (s := goTrimSpace line) (c := x)
        (by rw [hd]; exact List.mem_cons_self x t)
      rw [h] at this
      exact this
    simp [scanStep, hf, e1, e2, e3, hc]
  · have hc : goContains (goTrimSpace line) rbraceStr = true := by
      have := goContains_single (s := goTrimSpace line) (c := x)
        (by rw [hd]; exact List.mem_cons_self x t)
      rw [h] at this
      exact this
    simp [scanStep, hf, e1, e2, e3, hc]

/-- A non-empty non-comment non-attribute line that matches no
declaration, contains no brace and does not begin with `[` resets both
accumulators and emits nothing. -/
lemma scanStep_reset (ctx : ParseCtx) (st : ScanState) (line : String)
    (h1 : ¬goTrimSpace line = "")
    (h2 : goStartsWith (goTrimSpace line) "//" = false)
    (h3 : goStartsWith (goTrimSpace line) "[" = false)
    (h4 : funcSearch line = none)
    (h5 : goContains (goTrimSpace line) lbraceStr = false)
    (h6 : goContains (goTrimSpace line) rbraceStr = false) :
    scanStep ctx st line = { st with comments := [], attrs := [] } := by
  have h2' : goStartsWith (goTrimSpace line) "///" = false := by
    cases hh : goStartsWith (goTrimSpace line) "///"
    · rfl
    · rw [goStartsWith_three_of_two hh] at h2
      exact absurd h2 (by simp)
  have h1' : (goTrimSpace line == "") = false := beq_eq_false_iff_ne.mpr h1
  simp [scanStep, h1', h2, h2', h3, h4, h5, h6]

/-- Folding the scan over a run of blank or brace-only lines is the
identity on the scan state. -/
lemma scanFold_neutral (ctx : ParseCtx) (st : ScanState) (lines : List String)
    (h : ∀ ℓ ∈ lines, goTrimSpace ℓ = "" ∨
      (¬goTrimSpace ℓ = "" ∧ ∀ c ∈ (goTrimSpace ℓ).data, c = lbrace ∨ c = rbrace)) :
    scanFold ctx st lines = st := by
  induction lines generalizing st with
  | nil => rfl
  | cons ℓ rest ih =>
    have hstep : scanStep ctx st ℓ = st := by
      rcases h ℓ (List.mem_cons_self ℓ rest) with hb | ⟨hne, hbr⟩
      · exact scanStep_of_blank ctx st ℓ hb
      · exact scanStep_of_braceOnly ctx st ℓ hne hbr
    show scanFold ctx (scanStep ctx st ℓ) rest = st
    rw [hstep]
    exact ih st (fun m hm => h m (List.mem_cons_of_mem ℓ hm))

/-! ### Record-count bookkeeping of the scan -/

lemma goStartsWith_two_of_three_false {s : String}
    (h : goStartsWith s "//" = false) : goStartsWith s "///" = false := by
  cases hh : goStartsWith s "///"
  · rfl
  · rw [goStartsWith_three_of_two hh] at h
    exact absurd h (by simp)

/-- A line on which `emitsRecord` is false leaves the emitted-record
list unchanged. -/
lemma scanStep_out_unchanged (ctx : ParseCtx) (st : ScanState) (ℓ : String)
    (h : emitsRecord ℓ = false) : (scanStep ctx st ℓ).out = st.out := by
  by_cases hA : (goStartsWith (goTrimSpace ℓ) "[" && goEndsWith (goTrimSpace ℓ) "]") = true
  · cases hat : attrSearch (goTrimSpace ℓ) <;> simp [scanStep, hA, hat]
  · rw [Bool.not_eq_true] at hA
    by_cases hB : goStartsWith (goTrimSpace ℓ) "///" = true
    · simp [scanStep, hA, hB]
      split <;> rfl
    · rw [Bool.not_eq_true] at hB
      by_cases hC : goStartsWith (goTrimSpace ℓ) "//" = true
      · simp [scanStep, hA, hB, hC]
        split <;> rfl
      · rw [Bool.not_eq_true] at hC
        cases hfs : funcSearch ℓ with
        | some res =>
          exfalso
          rw [emitsRecord, hfs, hA, hC] at h
          simp at h
        | none =>
          simp [scanStep, hA, hB, hC, hfs]
          split <;> rfl

/-- A line on which the declaration pattern matches and which the
attribute and comment branches do not consume appends exactly the
record built from the captures and the pending accumulators. -/
lemma scanStep_out_emit (ctx : ParseCtx) (st : ScanState) (ℓ : String)
    (T N P0 : String)
    (hA : (goStartsWith (goTrimSpace ℓ) "[" && goEndsWith (goTrimSpace ℓ) "]") = false)
    (hC : goStartsWith (goTrimSpace ℓ) "//" = false)
    (hfs : funcSearch ℓ = some (T, N, P0)) :
    scanStep ctx st ℓ =
      { comments := [], attrs := [],
        out := st.out ++ [{
          FileName := ctx.fileName, FilePath := ctx.filePath,
          RelativePath := ctx.relPath, Namespace := ctx.ns, ClassName := ctx.cls,
          FuncName := N, Comments := st.comments, Signature := goTrimSpace ℓ,
          IsUnityEvent := unityEventsLookup N,
          IsCoroutine := goContains T "IEnumerator",
          Attributes := st.attrs,
          Keywords := extractKeywords N st.comments }] } := by
  have hB : goStartsWith (goTrimSpace ℓ) "///" = false := goStartsWith_two_of_three_false hC
  simp [scanStep, hA, hB, hC, hfs]

/-- An `emitsRecord` line decomposes into its defining conditions. -/
lemma emitsRecord_true_elim {ℓ : String} (h : emitsRecord ℓ = true) :
    (∃ T N P0, funcSearch ℓ = some (T, N, P0)) ∧
    (goStartsWith (goTrimSpace ℓ) "[" && goEndsWith (goTrimSpace ℓ) "]") = false ∧
    goStartsWith (goTrimSpace ℓ) "//" = false := by
  rw [emitsRecord] at h
  simp only [Bool.and_eq_true, Bool.not_eq_true'] at h
  obtain ⟨⟨h1, h2⟩, h3⟩ := h
  refine ⟨?_, h2, h3⟩
  cases hfs : funcSearch ℓ with
  | none => rw [hfs] at h1; simp at h1
  | some res =>
    obtain ⟨T, N, P0⟩ := res
    exact ⟨T, N, P0, rfl⟩

lemma scanStep_out_length (ctx : ParseCtx) (st : ScanState) (ℓ : String) :
    (scanStep ctx st ℓ).out.length = st.out.length + (if emitsRecord ℓ then 1 else 0) := by
  cases he : emitsRecord ℓ
  · rw [scanStep_out_unchanged ctx st ℓ he]
    simp
  · obtain ⟨⟨T, N, P0, hfs⟩, hA, hC⟩ := emitsRecord_true_elim he
    rw [scanStep_out_emit ctx st ℓ T N P0 hA hC hfs]
    simp

lemma scanFold_out_length (ctx : ParseCtx) (st : ScanState) (lines : List String) :
    (scanFold ctx st lines).out.length
      = st.out.length + (lines.filter emitsRecord).length := by
  induction lines generalizing st with
  | nil => simp [scanFold]
  | cons ℓ rest ih =>
    show (scanFold ctx (scanStep ctx st ℓ) rest).out.length = _
    rw [ih, scanStep_out_length, List.filter_cons]
    cases h : emitsRecord ℓ
    · simp [h]
    · simp [h]
      omega

/-! ### Shape of every emitted record -/

lemma scanStep_records (ctx : ParseCtx) (st : ScanState) (ℓ : String)
    (r : FunctionInfo) (hr : r ∈ (scanStep ctx st ℓ).out) :
    r ∈ st.out ∨ ∃ T N P0, funcSearch ℓ = some (T, N, P0) ∧
      r = { FileName := ctx.fileName, FilePath := ctx.filePath,
            RelativePath := ctx.relPath, Namespace := ctx.ns, ClassName := ctx.cls,
            FuncName := N, Comments := st.comments, Signature := goTrimSpace ℓ,
            IsUnityEvent := unityEventsLookup N,
            IsCoroutine := goContains T "IEnumerator",
            Attributes := st.attrs,
            Keywords := extractKeywords N st.comments } := by
  cases he : emitsRecord ℓ
  · rw [scanStep_out_unchanged ctx st ℓ he] at hr
    exact Or.inl hr
  · obtain ⟨⟨T, N, P0, hfs⟩, hA, hC⟩ := emitsRecord_true_elim he
    rw [scanStep_out_emit ctx st ℓ T N P0 hA hC hfs] at hr
    simp only at hr
    rcases List.mem_append.mp hr with h1 | h1
    · exact Or.inl h1
    · exact Or.inr ⟨T, N, P0, hfs, by simpa using h1⟩

lemma scanFold_records (ctx : ParseCtx) (st : ScanState) (lines : List String)
    (r : FunctionInfo) (hr : r ∈ (scanFold ctx st lines).out) :
    r ∈ st.out ∨ ∃ ℓ ∈ lines, ∃ T N P0 cs ats, funcSearch ℓ = some (T, N, P0) ∧
      r = { FileName := ctx.fileName, FilePath := ctx.filePath,
            RelativePath := ctx.relPath, Namespace := ctx.ns, ClassName := ctx.cls,
            FuncName := N, Comments := cs, Signature := goTrimSpace ℓ,
            IsUnityEvent := unityEventsLookup N,
            IsCoroutine := goContains T "IEnumerator",
            Attributes := ats,
            Keywords := extractKeywords N cs } := by
  induction lines generalizing st with
  | nil => exact Or.inl hr
  | cons ℓ rest ih =>
    have hr' : r ∈ (scanFold ctx (scanStep ctx st ℓ) rest).out := hr
    rcases ih (scanStep ctx st ℓ) hr' with h1 | h1
    · rcases scanStep_records ctx st ℓ r h1 with h2 | ⟨T, N, P0, hfs, heq⟩
      · exact Or.inl h2
      · exact Or.inr ⟨ℓ, List.mem_cons_self ℓ rest,
          T, N, P0, st.comments, st.attrs, hfs, heq⟩
    · obtain ⟨m, hm, rest'⟩ := h1
      exact Or.inr ⟨m, List.mem_cons_of_mem ℓ hm, rest'⟩

/-! ### Properties of the keyword-deduplication loop -/

lemma goDedupGen_contains_false (S : GoStringSet) :
    ∀ (l : List String) (m : S.σ), ∀ x ∈ goDedupGen S m l, S.contains m x = false := by
  intro l
  induction l with
  | nil => intro m x hx; simp [goDedupGen] at hx
  | cons kw rest ih =>
    intro m x hx
    simp only [goDedupGen] at hx
    by_cases hc : (!S.contains m kw && !(kw == "")) = true
    · rw [if_pos hc] at hx
      simp only [Bool.and_eq_true, Bool.not_eq_true'] at hc
      rcases List.mem_cons.mp hx with h1 | h1
      · rw [h1]; exact hc.1
      · have h2 := ih (S.insert m kw) x h1
        rw [S.contains_insert] at h2
        exact (Bool.or_eq_false_iff.mp h2).2
    · rw [if_neg hc] at hx
      exact ih m x hx

lemma goDedupGen_nodup (S : GoStringSet) :
    ∀ (l : List String) (m : S.σ), (goDedupGen S m l).Nodup := by
  intro l
  induction l with
  | nil => intro m; simp [goDedupGen]
  | cons kw rest ih =>
    intro m
    simp only [goDedupGen]
    by_cases hc : (!S.contains m kw && !(kw == "")) = true
    · rw [if_pos hc]
      refine List.nodup_cons.mpr ⟨?_, ih (S.insert m kw)⟩
      intro hmem
      have h2 := goDedupGen_contains_false S rest (S.insert m kw) kw hmem
      rw [S.contains_insert] at h2
      simp at h2
    · rw [if_neg hc]
      exact ih m

lemma goDedupGen_ne_empty (S : GoStringSet) :
    ∀ (l : List String) (m : S.σ), ∀ x ∈ goDedupGen S m l, ¬x = "" := by
  intro l
  induction l with
  | nil => intro m x hx; simp [goDedupGen] at hx
  | cons kw rest ih =>
    intro m x hx
    simp only [goDedupGen] at hx
    by_cases hc : (!S.contains m kw && !(kw == "")) = true
    · rw [if_pos hc] at hx
      simp only [Bool.and_eq_true, Bool.not_eq_true'] at hc
      rcases List.mem_cons.mp hx with h1 | h1
      · rw [h1]
        exact fun he => by rw [he] at hc; simp at hc
      · exact ih (S.insert m kw) x h1
    · rw [if_neg hc] at hx
      exact ih m x hx

lemma goDedupGen_sublist (S : GoStringSet) :
    ∀ (l : List String) (m : S.σ), List.Sublist (goDedupGen S m l) l := by
  intro l
  induction l with
  | nil => intro m; simp [goDedupGen]
  | cons kw rest ih =>
    intro m
    simp only [goDedupGen]
    by_cases hc : (!S.contains m kw && !(kw == "")) = true
    · rw [if_pos hc]
      exact List.Sublist.cons₂ kw (ih (S.insert m kw))
    · rw [if_neg hc]
      exact List.Sublist.cons kw (ih m)

lemma goDedupGen_complete (S : GoStringSet) :
    ∀ (l : List String) (m : S.σ) (k : String), k ∈ l → ¬k = "" →
      k ∈ goDedupGen S m l ∨ S.contains m k = true := by
  intro l
  induction l with
  | nil => intro m k hk; simp at hk
  | cons kw rest ih =>
    intro m k hk hne
    simp only [goDedupGen]
    by_cases hc : (!S.contains m kw && !(kw == "")) = true
    · rw [if_pos hc]
      rcases List.mem_cons.mp hk with h1 | h1
      · exact Or.inl (by rw [h1]; exact List.mem_cons_self kw _)
      · rcases ih (S.insert m kw) k h1 hne with h2 | h2
        · exact Or.inl (List.mem_cons_of_mem kw h2)
        · rw [S.contains_insert] at h2
          rcases Bool.or_eq_true_iff.mp h2 with h3 | h3
          · exact Or.inl (by rw [beq_iff_eq.mp h3]; exact List.mem_cons_self kw _)
          · exact Or.inr h3
    · rw [if_neg hc]
      rcases List.mem_cons.mp hk with h1 | h1
      · subst h1
        simp only [Bool.and_eq_true, Bool.not_eq_true'] at hc
        rcases Decidable.not_and_iff_or_not.mp hc with h2 | h2
        · right
          cases h3 : S.contains m k
          · exact absurd h3 h2
          · rfl
        · exact absurd (beq_eq_false_iff_ne.mpr hne) h2
      · exact ih m k h1 hne

/-! ### Keywords are lower-case fixpoints -/

lemma splitCamelCaseAux_lower :
    ∀ (rest cur : List Char) (ws : List String),
      (∀ w ∈ ws, goToLower w = w) →
      ∀ w ∈ splitCamelCaseAux rest cur ws, goToLower w = w := by
  intro rest
  induction rest with
  | nil =>
    intro cur ws hws w hw
    simp only [splitCamelCaseAux] at hw
    by_cases hcur : cur.isEmpty = true
    · rw [if_pos hcur] at hw
      exact hws w hw
    · rw [if_neg hcur] at hw
      rcases List.mem_append.mp hw with h1 | h1
      · exact hws w h1
      · rw [List.mem_singleton.mp h1]
        exact goToLower_idem _
  | cons r rest ih =>
    intro cur ws hws w hw
    simp only [splitCamelCaseAux] at hw
    by_cases hr : 65 ≤ r.toNat ∧ r.toNat ≤ 90
    · rw [if_pos hr] at hw
      by_cases hcur : cur.isEmpty = true
      · rw [if_pos hcur] at hw
        exact ih [r] ws hws w hw
      · rw [if_neg hcur] at hw
        refine ih [r] _ ?_ w hw
        intro v hv
        rcases List.mem_append.mp hv with h1 | h1
        · exact hws v h1
        · rw [List.mem_singleton.mp h1]
          exact goToLower_idem _
    · rw [if_neg hr] at hw
      exact ih (cur ++ [r]) ws hws w hw

lemma splitCamelCase_lower (s : String) :
    ∀ w ∈ splitCamelCase s, goToLower w = w := by
  unfold splitCamelCase
  cases s.data with
  | nil => intro w hw; simp at hw
  | cons c rest =>
    exact splitCamelCaseAux_lower rest [c] [] (fun w hw => by simp at hw)

lemma commentTokens_lower (comments : List String) :
    ∀ w ∈ commentTokens comments, goToLower w = w := by
  intro w hw
  obtain ⟨w', _, hw'⟩ := List.mem_map.mp hw
  rw [← hw']
  exact goToLower_idem w'

lemma rawKeywords_lower (name : String) (comments : List String) :
    ∀ w ∈ rawKeywords name comments, goToLower w = w := by
  intro w hw
  rcases List.mem_append.mp hw with h1 | h1
  · exact splitCamelCase_lower name w h1
  · exact commentTokens_lower comments w h1

lemma goLen_eq_zero_of_empty : goLen "" = 0 := rfl

lemma goLen_ne_of_pos {w : String} (h : 0 < goLen w) : ¬w = "" := by
  intro he
  rw [he] at h
  simp [goLen] at h

/-! ### The reference dedup and implementation independence -/

lemma goDedupGen_eq_ref (S : GoStringSet) :
    ∀ (l : List String) (m : S.σ) (seen : List String),
      (∀ k, S.contains m k = seen.contains k) →
      goDedupGen S m l = goDedupRef seen l := by
  intro l
  induction l with
  | nil => intro m seen _; rfl
  | cons kw rest ih =>
    intro m seen h
    simp only [goDedupGen, goDedupRef, h kw]
    by_cases hc : (!List.contains seen kw && !(kw == "")) = true
    · rw [if_pos hc, if_pos hc]
      refine congrArg (List.cons kw) (ih (S.insert m kw) (kw :: seen) ?_)
      intro k
      rw [S.contains_insert, h k]
      rfl
    · rw [if_neg hc, if_neg hc]
      exact ih m seen h

/-! ### Compositional behaviour of the directory walk -/

lemma walkGo_cons_err (root : String) (recs : List FunctionInfo) (warns : List String)
    (p m : String) (rest : List WalkEntry) :
    walkGo root recs warns (WalkEntry.errEvent p m :: rest)
      = (recs, warns, some (GoErr.walkFailure m)) := rfl

lemma walkGo_cons_unreadable (root : String) (recs : List FunctionInfo)
    (warns : List String) (p : String) (d : Bool) (rest : List WalkEntry)
    (hp : ¬d = true ∧ goEndsWith p ".cs" = true) :
    walkGo root recs warns (WalkEntry.fileEvent p d none :: rest)
      = walkGo root recs (warns ++ [warnMsg p]) rest := by
  simp [walkGo, hp]

lemma walkGo_cons_readable (root : String) (recs : List FunctionInfo)
    (warns : List String) (p : String) (d : Bool) (txt : String) (rest : List WalkEntry)
    (hp : ¬d = true ∧ goEndsWith p ".cs" = true) :
    walkGo root recs warns (WalkEntry.fileEvent p d (some txt) :: rest)
      = walkGo root (recs ++ parseFile p root txt) warns rest := by
  simp [walkGo, hp]

lemma walkGo_cons_skip (root : String) (recs : List FunctionInfo)
    (warns : List String) (p : String) (d : Bool) (c : Option String)
    (rest : List WalkEntry) (hp : ¬(¬d = true ∧ goEndsWith p ".cs" = true)) :
    walkGo root recs warns (WalkEntry.fileEvent p d c :: rest)
      = walkGo root recs warns rest := by
  cases c <;> (simp only [walkGo]; rw [if_neg hp])

lemma walkGo_append_acc (root : String) :
    ∀ (es : List WalkEntry) (recs : List FunctionInfo) (warns : List String),
      walkGo root recs warns es =
        (recs ++ (walkGo root [] [] es).1,
         warns ++ (walkGo root [] [] es).2.1,
         (walkGo root [] [] es).2.2) := by
  intro es
  induction es with
  | nil => intro recs warns; simp [walkGo]
  | cons e rest ih =>
    intro recs warns
    cases e with
    | errEvent p m => simp [walkGo]
    | fileEvent p d c =>
      by_cases hp : ¬d = true ∧ goEndsWith p ".cs" = true
      · cases c with
        | none =>
          rw [walkGo_cons_unreadable root recs warns p d rest hp,
              walkGo_cons_unreadable root [] [] p d rest hp,
              ih recs (warns ++ [warnMsg p]), ih [] ([] ++ [warnMsg p])]
          simp
        | some txt =>
          rw [walkGo_cons_readable root recs warns p d txt rest hp,
              walkGo_cons_readable root [] [] p d txt rest hp,
              ih (recs ++ parseFile p root txt) warns, ih ([] ++ parseFile p root txt) []]
          simp
      · rw [walkGo_cons_skip root recs warns p d c rest hp,
            walkGo_cons_skip root [] [] p d c rest hp]
        exact ih recs warns

lemma walkGo_no_err_none (root : String) :
    ∀ (es : List WalkEntry), (∀ e ∈ es, isErrEvent e = false) →
      (walkGo root [] [] es).2.2 = none := by
  intro es
  induction es with
  | nil => intro _; rfl
  | cons e rest ih =>
    intro h
    have hrest := fun x hx => h x (List.mem_cons_of_mem e hx)
    cases e with
    | errEvent p m =>
      exact absurd (h _ (List.mem_cons_self _ _)) (by simp [isErrEvent])
    | fileEvent p d c =>
      by_cases hp : ¬d = true ∧ goEndsWith p ".cs" = true
      · cases c with
        | none =>
          rw [walkGo_cons_unreadable root [] [] p d rest hp,
              walkGo_append_acc root rest]
          exact ih hrest
        | some txt =>
          rw [walkGo_cons_readable root [] [] p d txt rest hp,
              walkGo_append_acc root rest]
          exact ih hrest
      · rw [walkGo_cons_skip root [] [] p d c rest hp]
        exact ih hrest

lemma walkGo_split (root : String) :
    ∀ (xs ys : List WalkEntry), (∀ e ∈ xs, isErrEvent e = false) →
      walkGo root [] [] (xs ++ ys) =
        ((walkGo root [] [] xs).1 ++ (walkGo root [] [] ys).1,
         (walkGo root [] [] xs).2.1 ++ (walkGo root [] [] ys).2.1,
         (walkGo root [] [] ys).2.2) := by
  intro xs
  induction xs with
  | nil => intro ys _; simp [walkGo]
  | cons e rest ih =>
    intro ys h
    have hrest : ∀ x ∈ rest, isErrEvent x = false :=
      fun x hx => h x (List.mem_cons_of_mem _ hx)
    cases e with
    | errEvent p m =>
      exact absurd (h _ (List.mem_cons_self _ _)) (by simp [isErrEvent])
    | fileEvent p d c =>
      by_cases hp : ¬d = true ∧ goEndsWith p ".cs" = true
      · cases c with
        | none =>
          rw [List.cons_append,
              walkGo_cons_unreadable root [] [] p d (rest ++ ys) hp,
              walkGo_cons_unreadable root [] [] p d rest hp,
              walkGo_append_acc root (rest ++ ys) [] ([] ++ [warnMsg p]),
              ih ys hrest,
              walkGo_append_acc root rest [] ([] ++ [warnMsg p])]
          simp
        | some txt =>
          rw [List.cons_append,
              walkGo_cons_readable root [] [] p d txt (rest ++ ys) hp,
              walkGo_cons_readable root [] [] p d txt rest hp,
              walkGo_append_acc root (rest ++ ys) ([] ++ parseFile p root txt) [],
              ih ys hrest,
              walkGo_append_acc root rest ([] ++ parseFile p root txt) []]
          simp
      · rw [List.cons_append,
            walkGo_cons_skip root [] [] p d c (rest ++ ys) hp,
            walkGo_cons_skip root [] [] p d c rest hp]
        exact ih ys hrest

/-! ### Renderer grouping lemmas -/

lemma goLeList_total : ∀ a b : List Char, goLeList a b = true ∨ goLeList b a = true := by
  intro a
  induction a with
  | nil => intro b; exact Or.inl rfl
  | cons x as ih =>
    intro b
    cases b with
    | nil => exact Or.inr rfl
    | cons y bs =>
      simp only [goLeList]
      by_cases h1 : x.toNat < y.toNat
      · exact Or.inl (by simp [h1])
      · by_cases h2 : y.toNat < x.toNat
        · exact Or.inr (by simp [h2, h1])
        · rcases ih bs with h | h
          · exact Or.inl (by simp [h1, h2, h])
          · exact Or.inr (by simp [h1, h2, h])

lemma goLeList_trans :
    ∀ a b c : List Char, goLeList a b = true → goLeList b c = true →
      goLeList a c = true := by
  intro a
  induction a with
  | nil => intro b c _ _; rfl
  | cons x as ih =>
    intro b c hab hbc
    cases b with
    | nil => simp [goLeList] at hab
    | cons y bs =>
      cases c with
      | nil => simp [goLeList] at hbc
      | cons z cs =>
        simp only [goLeList] at hab hbc ⊢
        by_cases h1 : x.toNat < y.toNat <;> by_cases h2 : y.toNat < x.toNat <;>
          by_cases h3 : y.toNat < z.toNat <;> by_cases h4 : z.toNat < y.toNat <;>
          by_cases h5 : x.toNat < z.toNat <;> by_cases h6 : z.toNat < x.toNat <;>
          simp_all <;>
          first
            | omega
            | exact Or.inr (ih bs cs hab hbc)

lemma sortStrings_sorted (l : List String) :
    List.Sorted (fun a b : String => goLeString a b = true) (sortStrings l) := by
  haveI : IsTotal String (fun a b => goLeString a b = true) :=
    ⟨fun a b => goLeList_total a.data b.data⟩
  haveI : IsTrans String (fun a b => goLeString a b = true) :=
    ⟨fun a b c => goLeList_trans a.data b.data c.data⟩
  exact List.sorted_insertionSort _ l

lemma sortStrings_mem {l : List String} {a : String} :
    a ∈ sortStrings l ↔ a ∈ l :=
  (List.perm_insertionSort _ l).mem_iff

lemma sortStrings_nodup {l : List String} (h : l.Nodup) :
    (sortStrings l).Nodup :=
  (List.perm_insertionSort _ l).nodup_iff.mpr h

lemma renderOrder_fst (fns : List FunctionInfo) :
    (renderOrder fns).map Prod.fst = categoriesSorted fns := by
  simp [renderOrder, Function.comp_def]

lemma pairup_fst {β : Type} (l : List String) (g : String → β) :
    (l.map (fun cn => (cn, g cn))).map Prod.fst = l := by
  simp [Function.comp_def]

lemma walkGo_err_shape (root : String) :
    ∀ (es : List WalkEntry) (recs : List FunctionInfo) (warns : List String),
      (walkGo root recs warns es).2.2 = none ∨
      ∃ m, (walkGo root recs warns es).2.2 = some (GoErr.walkFailure m) := by
  intro es
  induction es with
  | nil => intro recs warns; exact Or.inl rfl
  | cons e rest ih =>
    intro recs warns
    cases e with
    | errEvent p m => exact Or.inr ⟨m, rfl⟩
    | fileEvent p d c =>
      by_cases hp : ¬d = true ∧ goEndsWith p ".cs" = true
      · cases c with
        | none =>
          rw [walkGo_cons_unreadable root recs warns p d rest hp]
          exact ih recs (warns ++ [warnMsg p])
        | some txt =>
          rw [walkGo_cons_readable root recs warns p d txt rest hp]
          exact ih (recs ++ parseFile p root txt) warns
      · rw [walkGo_cons_skip root recs warns p d c rest hp]
        exact ih recs warns

/-! ## Claim theorems -/

/-- Claim C1, counterexample to the claim as stated: the statement
line `if (ready) { attack(); }` inserted between a comment block and a
following declaration is a non-comment, non-annotation statement line,
so the claim predicts that it clears the accumulators and `Foo`
inherits no comments; the code leaves the accumulators untouched
(because the line contains brace characters) and the emitted record
keeps the comment `doc`. -/
theorem claim1_counterexample :
    (parseFile "f.cs" "root"
        "/// doc\nif (ready) \x7b attack(); \x7d\n public void Foo()").map
      (fun r => r.Comments) = [["doc"]] := by
  decide

/-- Claim C1 (amended): during the line scan, inserting blank lines or
lines whose trimmed form consists only of brace characters between an
accumulated comment/annotation block and a following declaration
leaves the accumulators (and hence the declaration's attached comments
and annotations) unchanged, while any other non-comment,
non-annotation statement line — one that is non-empty after trimming,
does not begin with `//` or `[`, does not match the declaration
pattern, and contains neither an opening nor a closing brace
character — resets both accumulators to empty. -/
theorem claim1_comment_association_amended (ctx : ParseCtx) (st : ScanState)
    (mid : List String) (ℓ : String) :
    ((∀ m ∈ mid, goTrimSpace m = "" ∨
        (¬goTrimSpace m = "" ∧ ∀ c ∈ (goTrimSpace m).data, c = lbrace ∨ c = rbrace)) →
      scanFold ctx st mid = st)
    ∧ (¬goTrimSpace ℓ = "" →
       goStartsWith (goTrimSpace ℓ) "//" = false →
       goStartsWith (goTrimSpace ℓ) "[" = false →
       funcSearch ℓ = none →
       goContains (goTrimSpace ℓ) lbraceStr = false →
       goContains (goTrimSpace ℓ) rbraceStr = false →
       scanStep ctx st ℓ = { st with comments := [], attrs := [] }) := by
  constructor
  · intro h
    exact scanFold_neutral ctx st mid h
  · intro h1 h2 h3 h4 h5 h6
    exact scanStep_reset ctx st ℓ h1 h2 h3 h4 h5 h6

/-- Witness for the amended claim C1 at concrete inputs: blank and
brace-only separator lines preserve a pending comment/annotation
state, and the statement line `int x = 1;` clears it. -/
theorem claim1_witness :
    scanFold ⟨"f", "fp", "rel", "ns", "cls"⟩ ⟨["c"], ["A"], []⟩
        ["", "   ", " \x7b ", "\x7d\x7d"] = ⟨["c"], ["A"], []⟩
    ∧ scanStep ⟨"f", "fp", "rel", "ns", "cls"⟩ ⟨["c"], ["A"], []⟩ "int x = 1;"
        = ⟨[], [], []⟩ := by
  constructor
  · exact (claim1_comment_association_amended ⟨"f", "fp", "rel", "ns", "cls"⟩
      ⟨["c"], ["A"], []⟩ ["", "   ", " \x7b ", "\x7d\x7d"] "int x = 1;").1 (by decide)
  · exact (claim1_comment_association_amended ⟨"f", "fp", "rel", "ns", "cls"⟩
      ⟨["c"], ["A"], []⟩ [] "int x = 1;").2 (by decide) (by decide) (by decide)
      (by decide) (by decide) (by decide)

/-- Claim C2, counterexample to the claim as stated: with the
declaration at the very start of its line, the pattern
`(public|private|protected|internal|static|\s)+` has nothing to
consume before the return type, so `void MovePlayer() { }` is not
matched and the file yields no record at all. -/
theorem claim2_counterexample :
    parseFile "proj/Assets/f.cs" "proj"
      "/// Moves the player.\nvoid MovePlayer() \x7b \x7d" = [] := by
  decide

/-- Claim C2 (amended): with the declaration line carrying leading
white space (as any declaration inside a class body does), the file
`/// Moves the player.` directly above ` void MovePlayer() { }` yields
exactly one record, named `MovePlayer`, with comments
`["Moves the player."]` and keywords beginning `move`, `player`. -/
theorem claim2_scenario_amended :
    (parseFile "proj/Assets/f.cs" "proj"
        "/// Moves the player.\n void MovePlayer() \x7b \x7d").map
      (fun r => (r.FuncName, r.Comments, r.Keywords.take 2))
      = [("MovePlayer", ["Moves the player."], ["move", "player"])] := by
  decide

/-- Claim C3, counterexample to the claim as stated: the line
`[A] void Foo() //]` is matched by the declaration pattern (its
leading `[A]` fits the optional attribute group), but its trimmed form
begins with `[` and ends with `]`, so the attribute branch consumes it
and no record is emitted — one pattern-matched line, zero records. -/
theorem claim3_counterexample :
    parseFile "f.cs" "root" "[A] void Foo() //]" = []
    ∧ ((goSplitLines "[A] void Foo() //]").filter
        (fun ℓ => (funcSearch ℓ).isSome)).length = 1 := by
  decide

/-- Claim C3 (amended): for every input, the number of emitted records
equals the number of lines that are matched by the declaration pattern
and are not consumed by the earlier attribute or comment branches
(`emitsRecord`), regardless of comment/annotation content. -/
theorem claim3_record_count_amended (filePath rootPath content : String) :
    (parseFile filePath rootPath content).length
      = ((goSplitLines content).filter emitsRecord).length := by
  show (scanFold _ ⟨[], [], []⟩ (goSplitLines content)).out.length = _
  rw [scanFold_out_length]
  simp

/-- Claim C4: for every declaration line the scan accepts (matched by
the pattern with captures `(T, N, P0)` and not consumed by the
attribute or comment branches), the record emitted for that very line
has `IsUnityEvent` true exactly when the captured function name `N`
belongs to the fixed reserved Unity event set, and `IsCoroutine` true
exactly when the captured return-type token `T` of that line contains
`IEnumerator`.  Moreover every record in a `ParseFile` result has
`IsUnityEvent` agreeing with membership of its own `FuncName` in the
reserved set, and `Update` is in the set while `Attack` is not. -/
theorem claim4_classification :
    (∀ (ctx : ParseCtx) (st : ScanState) (ℓ T N P0 : String),
        funcSearch ℓ = some (T, N, P0) →
        (goStartsWith (goTrimSpace ℓ) "[" && goEndsWith (goTrimSpace ℓ) "]") = false →
        goStartsWith (goTrimSpace ℓ) "//" = false →
        ∃ r, scanStep ctx st ℓ
            = { comments := [], attrs := [], out := st.out ++ [r] } ∧
          r.FuncName = N ∧
          (r.IsUnityEvent = true ↔ N ∈ unityEventNames) ∧
          (r.IsCoroutine = true ↔ goContains T "IEnumerator" = true))
    ∧ (∀ (filePath rootPath content : String) (r : FunctionInfo),
        r ∈ parseFile filePath rootPath content →
          (r.IsUnityEvent = true ↔ r.FuncName ∈ unityEventNames))
    ∧ unityEventsLookup "Update" = true ∧ unityEventsLookup "Attack" = false := by
  refine ⟨?_, ?_, by decide, by decide⟩
  · intro ctx st ℓ T N P0 hfs hA hC
    refine ⟨_, scanStep_out_emit ctx st ℓ T N P0 hA hC hfs, rfl, ?_, Iff.rfl⟩
    show unityEventsLookup N = true ↔ N ∈ unityEventNames
    exact List.elem_iff
  · intro fp rp content r hr
    have hr' : r ∈ (scanFold
        { fileName := goFilepathBase fp, filePath := fp,
          relPath := goFilepathRel rp fp,
          ns := (namespaceSearch content).getD "",
          cls := (classSearch content).getD "" } ⟨[], [], []⟩ (goSplitLines content)).out := hr
    rcases scanFold_records _ _ _ r hr' with h | ⟨ℓ, _, T, N, P0, cs, ats, hfs, heq⟩
    · simp at h
    · subst heq
      show unityEventsLookup N = true ↔ N ∈ unityEventNames
      exact List.elem_iff

/-- Witness for claim C4: the declaration line
` IEnumerator Update() { }` emits, from the empty scan state, a record
classified as both a Unity event and a coroutine from that line's own
captures. -/
theorem claim4_witness :
    (∃ r, scanStep ⟨"a.cs", "p/Assets/a.cs", "Assets/a.cs", "", ""⟩ ⟨[], [], []⟩
          " IEnumerator Update() \x7b \x7d"
        = { comments := [], attrs := [],
            out := (⟨[], [], []⟩ : ScanState).out ++ [r] } ∧
        r.FuncName = "Update" ∧
        (r.IsUnityEvent = true ↔ "Update" ∈ unityEventNames) ∧
        (r.IsCoroutine = true ↔ goContains "IEnumerator" "IEnumerator" = true))
    ∧ ∃ r ∈ parseFile "p/Assets/a.cs" "p" " IEnumerator Update() \x7b \x7d",
        (r.IsUnityEvent = true ↔ r.FuncName ∈ unityEventNames) := by
  constructor
  · exact claim4_classification.1 ⟨"a.cs", "p/Assets/a.cs", "Assets/a.cs", "", ""⟩
      ⟨[], [], []⟩ " IEnumerator Update() \x7b \x7d" "IEnumerator" "Update" ""
      (by decide) (by decide) (by decide)
  · exact ⟨(parseFile "p/Assets/a.cs" "p" " IEnumerator Update() \x7b \x7d").head (by decide),
      List.head_mem _,
      claim4_classification.2.1 "p/Assets/a.cs" "p" " IEnumerator Update() \x7b \x7d" _
        (List.head_mem _)⟩

/-- Claim C5: the keyword list contains no empty string, no two
entries that agree after lower-casing, is a sublist of (and complete
for) the raw keyword sequence — so first-seen order is preserved —
and the comment pipeline keeps exactly the tokens of byte length at
least 2. -/
theorem claim5_keyword_invariants (name : String) (comments : List String) :
    ("" ∉ extractKeywords name comments)
    ∧ List.Pairwise (fun x y => goToLower x ≠ goToLower y) (extractKeywords name comments)
    ∧ List.Sublist (extractKeywords name comments) (rawKeywords name comments)
    ∧ (∀ k ∈ rawKeywords name comments, ¬k = "" → k ∈ extractKeywords name comments)
    ∧ (∀ w ∈ goFields (goJoinSpace comments), 1 < goLen w →
        goToLower w ∈ extractKeywords name comments)
    ∧ (∀ w ∈ goFields (goJoinSpace comments), goLen w ≤ 1 →
        goToLower w ∉ commentTokens comments) := by
  have hsub := goDedupGen_sublist listSetImpl (rawKeywords name comments) listSetImpl.empty
  have hcomplete : ∀ k ∈ rawKeywords name comments, ¬k = "" →
      k ∈ extractKeywords name comments := by
    intro k hk hne
    rcases goDedupGen_complete listSetImpl (rawKeywords name comments)
        listSetImpl.empty k hk hne with h | h
    · exact h
    · rw [listSetImpl.contains_empty k] at h
      exact absurd h (by simp)
  refine ⟨?_, ?_, hsub, hcomplete, ?_, ?_⟩
  · intro h
    exact goDedupGen_ne_empty listSetImpl (rawKeywords name comments)
      listSetImpl.empty "" h rfl
  · have hnd := goDedupGen_nodup listSetImpl (rawKeywords name comments) listSetImpl.empty
    refine hnd.imp_of_mem ?_
    intro a b ha hb hne
    rw [rawKeywords_lower name comments a (hsub.subset ha),
        rawKeywords_lower name comments b (hsub.subset hb)]
    exact hne
  · intro w hw hlen
    have hfix : goLen (goToLower w) = goLen w := goLen_goToLower w
    have hmem : goToLower w ∈ commentTokens comments :=
      List.mem_map.mpr ⟨w, List.mem_filter.mpr ⟨hw, by simpa using hlen⟩, rfl⟩
    refine hcomplete (goToLower w) (List.mem_append.mpr (Or.inr hmem)) ?_
    apply goLen_ne_of_pos
    rw [hfix]
    omega
  · intro w hw hlen hmem
    obtain ⟨w', hw', heq⟩ := List.mem_map.mp hmem
    have h1 : 1 < goLen w' := by
      have := (List.mem_filter.mp hw').2
      simpa using this
    have h2 : goLen (goToLower w') = goLen (goToLower w) := by rw [heq]
    rw [goLen_goToLower, goLen_goToLower] at h2
    omega

/-- Witness for claim C5 at a concrete input: in
`extractKeywords "MoveFast" ["a ab"]` there is no empty keyword, the
name fragments and the two-byte comment token survive, and the
one-byte comment token `a` is dropped by the comment pipeline. -/
theorem claim5_witness :
    "" ∉ extractKeywords "MoveFast" ["a ab"]
    ∧ "move" ∈ extractKeywords "MoveFast" ["a ab"]
    ∧ goToLower "ab" ∈ extractKeywords "MoveFast" ["a ab"]
    ∧ goToLower "a" ∉ commentTokens ["a ab"] := by
  refine ⟨(claim5_keyword_invariants "MoveFast" ["a ab"]).1,
    (claim5_keyword_invariants "MoveFast" ["a ab"]).2.2.2.1 "move" (by decide) (by decide),
    (claim5_keyword_invariants "MoveFast" ["a ab"]).2.2.2.2.1 "ab" (by decide) (by decide),
    (claim5_keyword_invariants "MoveFast" ["a ab"]).2.2.2.2.2 "a" (by decide) (by decide)⟩

/-- Claim C6: keyword derivation is deterministic and order-stable —
its result does not depend on the seen-keyword set implementation (the
only implementation-dependent behaviour a Go map could contribute),
and the concrete `extractKeywords` computes that common value. -/
theorem claim6_keyword_determinism (S₁ S₂ : GoStringSet)
    (name : String) (comments : List String) :
    extractKeywordsGen S₁ name comments = extractKeywordsGen S₂ name comments
    ∧ extractKeywords name comments = extractKeywordsGen S₁ name comments := by
  have key : ∀ S : GoStringSet,
      extractKeywordsGen S name comments = goDedupRef [] (rawKeywords name comments) := by
    intro S
    exact goDedupGen_eq_ref S (rawKeywords name comments) S.empty []
      (fun k => by rw [S.contains_empty k]; rfl)
  refine ⟨?_, ?_⟩
  · rw [key S₁, key S₂]
  · show extractKeywordsGen listSetImpl name comments = _
    rw [key listSetImpl, key S₁]

/-- Claim C7: the scan fails with `NotAProjectRoot` exactly when the
`Assets` directory is absent — in which case it returns zero records
and never even starts the walk — and a scan that does start can fail
only with a traversal error, never with `NotAProjectRoot`. -/
theorem claim7_not_a_project_root :
    (∀ (root : String) (entries : List WalkEntry),
        scanUnityProject root false entries = ([], [], some GoErr.notAProjectRoot))
    ∧ (∀ (root : String) (entries : List WalkEntry),
        (scanUnityProject root true entries).2.2 ≠ some GoErr.notAProjectRoot) := by
  constructor
  · intro root entries
    rfl
  · intro root entries h
    have hs : (scanUnityProject root true entries).2.2
        = (walkGo root [] [] entries).2.2 := rfl
    rcases walkGo_err_shape root entries [] [] with h2 | ⟨m, h2⟩ <;>
      rw [hs, h2] at h <;> simp at h

/-- Claim C8: a per-file read failure is caught locally — the file
contributes no records, one warning naming its path is emitted in
place, and the scan of the remaining files proceeds and succeeds —
whereas a traversal error aborts the walk, returning the records and
warnings accumulated so far together with the error. -/
theorem claim8_per_file_failure_isolation :
    (∀ (root p : String) (pre post : List WalkEntry),
        (∀ e ∈ pre, isErrEvent e = false) →
        (∀ e ∈ post, isErrEvent e = false) →
        goEndsWith p ".cs" = true →
        scanUnityProject root true (pre ++ WalkEntry.fileEvent p false none :: post)
          = ((scanUnityProject root true pre).1 ++ (scanUnityProject root true post).1,
             (scanUnityProject root true pre).2.1
               ++ warnMsg p :: (scanUnityProject root true post).2.1,
             none))
    ∧ (∀ (root p m : String) (pre post : List WalkEntry),
        (∀ e ∈ pre, isErrEvent e = false) →
        scanUnityProject root true (pre ++ WalkEntry.errEvent p m :: post)
          = ((scanUnityProject root true pre).1,
             (scanUnityProject root true pre).2.1,
             some (GoErr.walkFailure m))) := by
  constructor
  · intro root p pre post hpre hpost hcs
    show walkGo root [] [] (pre ++ WalkEntry.fileEvent p false none :: post) = _
    rw [walkGo_split root pre (WalkEntry.fileEvent p false none :: post) hpre,
        walkGo_cons_unreadable root [] [] p false post ⟨by simp, hcs⟩,
        walkGo_append_acc root post [] ([] ++ [warnMsg p]),
        walkGo_no_err_none root post hpost]
    simp [scanUnityProject]
  · intro root p m pre post hpre
    show walkGo root [] [] (pre ++ WalkEntry.errEvent p m :: post) = _
    rw [walkGo_split root pre (WalkEntry.errEvent p m :: post) hpre,
        walkGo_cons_err]
    simp [scanUnityProject]

/-- Witness for claim C8 at concrete inputs: one unreadable file
between two readable ones contributes only a warning, and a traversal
error aborts the walk. -/
theorem claim8_witness :
    scanUnityProject "p" true
        ([WalkEntry.fileEvent "p/Assets/a.cs" false (some " void F() \x7b \x7d")]
          ++ WalkEntry.fileEvent "p/Assets/bad.cs" false none
          :: [WalkEntry.fileEvent "p/Assets/b.cs" false (some " void G() \x7b \x7d")])
      = ((scanUnityProject "p" true
            [WalkEntry.fileEvent "p/Assets/a.cs" false (some " void F() \x7b \x7d")]).1
          ++ (scanUnityProject "p" true
            [WalkEntry.fileEvent "p/Assets/b.cs" false (some " void G() \x7b \x7d")]).1,
         (scanUnityProject "p" true
            [WalkEntry.fileEvent "p/Assets/a.cs" false (some " void F() \x7b \x7d")]).2.1
          ++ warnMsg "p/Assets/bad.cs"
          :: (scanUnityProject "p" true
            [WalkEntry.fileEvent "p/Assets/b.cs" false (some " void G() \x7b \x7d")]).2.1,
         none)
    ∧ scanUnityProject "p" true
        ([WalkEntry.fileEvent "p/Assets/a.cs" false (some " void F() \x7b \x7d")]
          ++ WalkEntry.errEvent "p/Assets/x" "denied" :: [])
      = ((scanUnityProject "p" true
            [WalkEntry.fileEvent "p/Assets/a.cs" false (some " void F() \x7b \x7d")]).1,
         (scanUnityProject "p" true
            [WalkEntry.fileEvent "p/Assets/a.cs" false (some " void F() \x7b \x7d")]).2.1,
         some (GoErr.walkFailure "denied")) := by
  constructor
  · exact claim8_per_file_failure_isolation.1 "p" "p/Assets/bad.cs"
      [WalkEntry.fileEvent "p/Assets/a.cs" false (some " void F() \x7b \x7d")]
      [WalkEntry.fileEvent "p/Assets/b.cs" false (some " void G() \x7b \x7d")]
      (by decide) (by decide) (by decide)
  · exact claim8_per_file_failure_isolation.2 "p" "p/Assets/x" "denied"
      [WalkEntry.fileEvent "p/Assets/a.cs" false (some " void F() \x7b \x7d")]
      [] (by decide)

/-- Claim C9: the renderer's emission order groups the records by the
first path segment of their relative path (paths without a separator
fall into the `其他` catch-all), lists categories in lexicographic
order without duplicates, within each category lists the class names
(empty class name shown as `全局函数`) in lexicographic order without
duplicates, and within a class emits exactly that class's records in
input order (an order-preserving filter of the input). -/
theorem claim9_markdown_grouping (fns : List FunctionInfo) :
    ((renderOrder fns).map Prod.fst).Sorted (fun a b : String => goLeString a b = true)
    ∧ ((renderOrder fns).map Prod.fst).Nodup
    ∧ (∀ c, c ∈ (renderOrder fns).map Prod.fst ↔ ∃ f ∈ fns, categoryOf f = c)
    ∧ (∀ f : FunctionInfo, categoryOf f =
        if 1 < ((goSplitChar '/' f.RelativePath.data).map String.mk).length
        then ((goSplitChar '/' f.RelativePath.data).map String.mk).headD ""
        else "其他")
    ∧ (∀ f : FunctionInfo, displayClassOf f =
        if f.ClassName = "" then "全局函数" else f.ClassName)
    ∧ (∀ p ∈ renderOrder fns,
        (p.2.map Prod.fst).Sorted (fun a b : String => goLeString a b = true)
        ∧ (p.2.map Prod.fst).Nodup
        ∧ (∀ cn, cn ∈ p.2.map Prod.fst ↔
            ∃ f ∈ fns, categoryOf f = p.1 ∧ displayClassOf f = cn)
        ∧ (∀ q ∈ p.2, q.2 = fns.filter
            (fun f => categoryOf f == p.1 && displayClassOf f == q.1))) := by
  refine ⟨?_, ?_, ?_, fun f => rfl, fun f => rfl, ?_⟩
  · rw [renderOrder_fst]
    exact sortStrings_sorted _
  · rw [renderOrder_fst]
    exact sortStrings_nodup (List.nodup_dedup _)
  · intro c
    rw [renderOrder_fst]
    unfold categoriesSorted
    rw [sortStrings_mem, List.mem_dedup, List.mem_map]
  · intro p hp
    obtain ⟨cat, hcat, heq⟩ := List.mem_map.mp hp
    subst heq
    refine ⟨?_, ?_, ?_, ?_⟩
    · rw [pairup_fst]
      exact sortStrings_sorted _
    · rw [pairup_fst]
      exact sortStrings_nodup (List.nodup_dedup _)
    · intro cn
      rw [pairup_fst]
      unfold classNamesSorted
      rw [sortStrings_mem, List.mem_dedup, List.mem_map]
      constructor
      · rintro ⟨f, hf, hfc⟩
        obtain ⟨hmem, hbeq⟩ := List.mem_filter.mp hf
        exact ⟨f, hmem, beq_iff_eq.mp hbeq, hfc⟩
      · rintro ⟨f, hf, hc1, hc2⟩
        exact ⟨f, List.mem_filter.mpr ⟨hf, beq_iff_eq.mpr hc1⟩, hc2⟩
    · intro q hq
      obtain ⟨cn, hcn, heq2⟩ := List.mem_map.mp hq
      subst heq2
      show (fns.filter _).filter _ = _
      rw [List.filter_filter]
      exact List.filter_congr (fun f _ => Bool.and_comm _ _)

/-- Witness for claim C9 at a concrete input with two records in
distinct categories and classes. -/
theorem claim9_witness :
    ((renderOrder [demoRecordA, demoRecordB]).map Prod.fst).Sorted
        (fun a b : String => goLeString a b = true)
    ∧ ("Assets" ∈ (renderOrder [demoRecordA, demoRecordB]).map Prod.fst ↔
        ∃ f ∈ [demoRecordA, demoRecordB], categoryOf f = "Assets")
    ∧ (("其他", [("Zed", [demoRecordB])]).2.map Prod.fst).Sorted
        (fun a b : String => goLeString a b = true)
    ∧ ("Zed", [demoRecordB]).2 = [demoRecordA, demoRecordB].filter
        (fun f => categoryOf f == ("其他", [("Zed", [demoRecordB])]).1
          && displayClassOf f == ("Zed", [demoRecordB]).1) := by
  have hro : renderOrder [demoRecordA, demoRecordB]
      = [("Assets", [("全局函数", [demoRecordA])]), ("其他", [("Zed", [demoRecordB])])] := by
    decide
  have hmem : ("其他", [("Zed", [demoRecordB])]) ∈ renderOrder [demoRecordA, demoRecordB] := by
    rw [hro]
    exact List.mem_cons_of_mem _ (List.mem_cons_self _ _)
  have hq : ("Zed", [demoRecordB]) ∈ ("其他", [("Zed", [demoRecordB])]).2 :=
    List.mem_cons_self _ _
  exact ⟨(claim9_markdown_grouping [demoRecordA, demoRecordB]).1,
    (claim9_markdown_grouping [demoRecordA, demoRecordB]).2.2.1 "Assets",
    ((claim9_markdown_grouping [demoRecordA, demoRecordB]).2.2.2.2.2
      ("其他", [("Zed", [demoRecordB])]) hmem).1,
    ((claim9_markdown_grouping [demoRecordA, demoRecordB]).2.2.2.2.2
      ("其他", [("Zed", [demoRecordB])]) hmem).2.2.2
      ("Zed", [demoRecordB]) hq⟩

/-- Claim C10: `GenerateJSON` is an unimplemented stub — for every
record list and output path it returns `nil` success and performs no
write. -/
theorem claim10_generate_json_stub (functions : List FunctionInfo) (outputPath : String) :
    generateJSON functions outputPath = (none, []) := rfl

/-- Witness for the amended claim C3 at a concrete three-line file. -/
theorem claim3_witness :
    (parseFile "f.cs" "r" "/// d\n void A()\n void B()").length
      = ((goSplitLines "/// d\n void A()\n void B()").filter emitsRecord).length :=
  claim3_record_count_amended "f.cs" "r" "/// d\n void A()\n void B()"

/-- Witness for claim C6 at a concrete input and the list-backed set
implementation. -/
theorem claim6_witness :
    extractKeywordsGen listSetImpl "MoveFast" ["go now"]
      = extractKeywordsGen listSetImpl "MoveFast" ["go now"]
    ∧ extractKeywords "MoveFast" ["go now"]
      = extractKeywordsGen listSetImpl "MoveFast" ["go now"] :=
  claim6_keyword_determinism listSetImpl listSetImpl "MoveFast" ["go now"]

/-- Witness for claim C7 at a concrete event list. -/
theorem claim7_witness :
    scanUnityProject "p" false [WalkEntry.errEvent "x" "m"]
      = ([], [], some GoErr.notAProjectRoot)
    ∧ (scanUnityProject "p" true [WalkEntry.errEvent "x" "m"]).2.2
      ≠ some GoErr.notAProjectRoot :=
  ⟨claim7_not_a_project_root.1 "p" [WalkEntry.errEvent "x" "m"],
   claim7_not_a_project_root.2 "p" [WalkEntry.errEvent "x" "m"]⟩

/-- Witness for claim C10 at a concrete record list and path. -/
theorem claim10_witness :
    generateJSON [demoRecordA] "out.json" = (none, []) :=
  claim10_generate_json_stub [demoRecordA] "out.json"

end UnityIndexer
